import Mathlib

/-!
# The in-memory person directory of `src/go/main.go`

A shallow embedding of `Person` and its methods, of `DataService` with
`NewDataService`, `GetAllPeople`, `FindPersonByEmail` and `AddPerson`, of the
`Calculator`, of `savePeopleToFile`, `demonstrateErrorHandling` and `main`.

Go passes entities around as `*Person`, and `AddPerson` writes the identifier
through the pointer it is given.  The embedding therefore keeps an explicit
store of `Person` objects: a pointer is an address of the store, `nil` is
`none`, and the directory holds a sequence of addresses.  The logger is the
sequence of entries emitted so far.

A panic is an `Except.error`; the driver runs in a state that records what is
printed, logged and written.  `float64`, `os.Create` and the JSON encoder are
parameters of the driver; the document format and its reader are modelled
from the spec for the round-trip property.
-/

namespace NvimGo

/-- A point in time, as read by `time.Now()`. -/
abbrev Time := Nat

/-- The struct `Person` (main.go 15-21).  `int` fields are mathematical
integers: the only arithmetic on them is `len(ds.people) + 1`, and a slice of
pointers is far shorter than `2^63 - 1`. -/
structure Person where
  ID : Int
  Name : String
  Age : Int
  Email : String
  CreatedAt : Time
  deriving DecidableEq, Repr

/-- The store of `Person` objects.  A non-nil `*Person` is an address, a
natural number; `cells a` is the object at address `a`, and the addresses
below `next` are the allocated ones. -/
structure Heap where
  cells : Nat → Person
  next : Nat

/-- Allocation of a fresh object (`&Person{...}`): the new address and the
store afterwards. -/
def Heap.alloc (h : Heap) (p : Person) : Nat × Heap :=
  (h.next, { cells := Function.update h.cells h.next p, next := h.next + 1 })

/-- The write `person.ID = id` through a pointer. -/
def Heap.setID (h : Heap) (a : Nat) (id : Int) : Heap :=
  { h with cells := Function.update h.cells a { h.cells a with ID := id } }

/-- `NewPerson` (main.go 24-32); `now` is what `time.Now()` returns. -/
def NewPerson (h : Heap) (now : Time) (id : Int) (name : String) (age : Int)
    (email : String) : Nat × Heap :=
  h.alloc { ID := id, Name := name, Age := age, Email := email, CreatedAt := now }

/-- The logrus levels the program uses. -/
inductive Level where
  | info
  | warn
  deriving DecidableEq, Repr

/-- One emitted log entry: level, message and the fields attached with
`WithField`. -/
structure LogEntry where
  level : Level
  msg : String
  fields : List (String × String)
  deriving DecidableEq, Repr

/-- The struct `DataService` (main.go 49-52).  `people` lists the addresses
held by the slice, in order; `logger` lists the entries emitted so far. -/
structure DataService where
  people : List Nat
  logger : List LogEntry
  deriving DecidableEq, Repr

/-- One emission on `ds.logger` (the level is `InfoLevel`, so both `Info` and
`Warn` entries are written). -/
def DataService.emit (ds : DataService) (e : LogEntry) : DataService :=
  { ds with logger := ds.logger ++ [e] }

/-- `NewDataService` (main.go 55-67): three seed entities are allocated, in
order, at times `t1`, `t2`, `t3`. -/
def NewDataService (h : Heap) (t1 t2 t3 : Time) : DataService × Heap :=
  let r1 := NewPerson h t1 1 "Alice Johnson" 30 "alice@example.com"
  let r2 := NewPerson r1.2 t2 2 "Bob Smith" 25 "bob@test.org"
  let r3 := NewPerson r2.2 t3 3 "Carol Davis" 35 "carol@company.com"
  ({ people := [r1.1, r2.1, r3.1], logger := [] }, r3.2)

/-- What `GetAllPeople` hands back: the slice and the directory afterwards. -/
structure ListResult where
  ret : List Nat
  ds : DataService

/-- `GetAllPeople` (main.go 70-73). -/
def GetAllPeople (ds : DataService) : ListResult :=
  let ds1 := ds.emit { level := .info, msg := "Fetching all people", fields := [] }
  { ret := ds1.people, ds := ds1 }

/-- The `for _, person := range ds.people` loop of `FindPersonByEmail`
(main.go 79-84): the first address whose object has the given email. -/
def findLoop (h : Heap) (email : String) : List Nat → Option Nat
  | [] => none
  | person :: rest =>
    if (h.cells person).Email = email then some person else findLoop h email rest

/-- What `FindPersonByEmail` hands back: the pointer (`none` is `nil`) and the
directory afterwards. -/
structure FindResult where
  ret : Option Nat
  ds : DataService

/-- `FindPersonByEmail` (main.go 76-88). -/
def FindPersonByEmail (ds : DataService) (h : Heap) (email : String) : FindResult :=
  let ds1 := ds.emit
    { level := .info, msg := "Searching for person", fields := [("email", email)] }
  match findLoop h email ds.people with
  | some person =>
    { ret := some person,
      ds := ds1.emit { level := .info, msg := "Person found",
                       fields := [("person", (h.cells person).Name)] } }
  | none =>
    { ret := none,
      ds := ds1.emit { level := .warn, msg := "Person not found", fields := [] } }

/-- What `AddPerson` hands back: the error (`none` is `nil`, otherwise the
message of the `fmt.Errorf` value), the directory and the store afterwards. -/
structure AddResult where
  err : Option String
  ds : DataService
  heap : Heap

/-- `AddPerson` (main.go 91-106). -/
def AddPerson (ds : DataService) (h : Heap) (person : Option Nat) : AddResult :=
  match person with
  | none => { err := some "person cannot be nil", ds := ds, heap := h }
  | some p =>
    let r := FindPersonByEmail ds h (h.cells p).Email
    match r.ret with
    | some _ =>
      { err := some ("person with email " ++ (h.cells p).Email ++ " already exists"),
        ds := r.ds, heap := h }
    | none =>
      let h1 := h.setID p ((r.ds.people.length : Int) + 1)
      let ds1 : DataService := { r.ds with people := r.ds.people ++ [p] }
      let ds2 := ds1.emit { level := .info, msg := "Person added successfully",
                            fields := [("person", (h1.cells p).Name)] }
      { err := none, ds := ds2, heap := h1 }

/-- What the code around the directory does to it: it creates entities (with
`NewPerson` or a literal) and calls the three methods. -/
inductive Call where
  | make (p : Person)
  | add (person : Option Nat)
  | find (email : String)
  | list
  deriving DecidableEq, Repr

/-- One call, on the directory and the store. -/
def step (s : DataService × Heap) : Call → DataService × Heap
  | .make p => (s.1, (s.2.alloc p).2)
  | .add person => ((AddPerson s.1 s.2 person).ds, (AddPerson s.1 s.2 person).heap)
  | .find email => ((FindPersonByEmail s.1 s.2 email).ds, s.2)
  | .list => ((GetAllPeople s.1).ds, s.2)

/-- A sequence of calls, left to right. -/
def run (s : DataService × Heap) : List Call → DataService × Heap
  | [] => s
  | c :: cs => run (step s c) cs

/-- A call is well-formed in a store when the pointer it passes, if not nil,
points to an allocated object (Go has no other pointers). -/
def Call.ok (h : Heap) : Call → Bool
  | .add (some p) => decide (p < h.next)
  | _ => true

/-- Every call of the sequence is well-formed at the moment it is made. -/
def okRun (s : DataService × Heap) : List Call → Bool
  | [] => true
  | c :: cs => c.ok s.2 && okRun (step s c) cs

/-- The pointers the `AddPerson` calls of a sequence added successfully, in
order. -/
def added (s : DataService × Heap) : List Call → List Nat
  | [] => []
  | c :: cs =>
    (match c with
      | .add (some p) => if (AddPerson s.1 s.2 (some p)).err = none then [p] else []
      | _ => []) ++ added (step s c) cs

/-- A store with nothing allocated; every cell holds the zero `Person`. -/
def emptyHeap : Heap :=
  { cells := fun _ => { ID := 0, Name := "", Age := 0, Email := "", CreatedAt := 0 },
    next := 0 }

/-- The entity `main` creates at line 205, at time `t`. -/
def david (t : Time) : Person :=
  { ID := 0, Name := "David Wilson", Age := 28, Email := "david@newdomain.com",
    CreatedAt := t }

/-- `IsAdult` (main.go 35-37), on the object the receiver points to. -/
def Person.IsAdult (p : Person) : Bool :=
  decide (p.Age ≥ 18)

/-- An operand of a formatting call. -/
inductive Arg where
  | str (s : String)
  | int (n : Int)
  deriving DecidableEq, Repr

/-- The verb `%d` on an `int`: decimal digits, with a leading minus sign for a
negative number. -/
def fmtInt (n : Int) : List Char :=
  if n < 0 then '-' :: (Nat.repr n.natAbs).data else (Nat.repr n.natAbs).data

/-- The verb `%*s`: the string, padded with spaces on the left to the given
width, counted in characters. -/
def padLeft (w : Int) (s : List Char) : List Char :=
  List.replicate (w.toNat - s.length) ' ' ++ s

/-- The fragment of `fmt.Sprintf` the program uses on strings and integers:
literal text, `%%`, `%s` with a string operand, `%d` with an integer operand,
and `%*s` with a width and a string operand.  `none` marks a call outside this
fragment (another verb, an operand of another type, too few or too many
operands). -/
def sprintfChars : List Char → List Arg → Option (List Char)
  | [], [] => some []
  | [], _ :: _ => none
  | '%' :: '%' :: fmt, args => (sprintfChars fmt args).map ('%' :: ·)
  | '%' :: 's' :: fmt, Arg.str s :: args => (sprintfChars fmt args).map (s.data ++ ·)
  | '%' :: 'd' :: fmt, Arg.int n :: args => (sprintfChars fmt args).map (fmtInt n ++ ·)
  | '%' :: '*' :: 's' :: fmt, Arg.int w :: Arg.str s :: args =>
    (sprintfChars fmt args).map (padLeft w s.data ++ ·)
  | '%' :: _, _ => none
  | c :: fmt, args => (sprintfChars fmt args).map (c :: ·)

/-- `fmt.Sprintf`, on the fragment of `sprintfChars`; a call outside it gives
the empty string. -/
def Sprintf (format : String) (args : List Arg) : String :=
  match sprintfChars format.data args with
  | some cs => String.mk cs
  | none => ""

/-- `String` (main.go 40-46), on the object the receiver points to. -/
def Person.String (p : Person) : String :=
  let status := if p.IsAdult then "adult" else "minor"
  Sprintf "%s (%d) - %s [%s]" [.str p.Name, .int p.Age, .str p.Email, .str status]

/-! ### The calculator -/

/-- What the program takes from `float64`: the conversion `float64(n)` and the
division. -/
structure FloatOps (F : Type) where
  ofInt : Int → F
  div : F → F → F

/-- The value an `int` computation leaves: Go's `int` is 64 bits wide and
wraps around. -/
def wrap64 (x : Int) : Int :=
  (x + 2 ^ 63) % 2 ^ 64 - 2 ^ 63

/-- `Calculator.Add` (main.go 112-114). -/
def Calculator.Add (a b : Int) : Int :=
  wrap64 (a + b)

/-- `Calculator.Divide` (main.go 117-122); `Except.error` is a panic with the
given value. -/
def Calculator.Divide {F : Type} (fl : FloatOps F) (a b : Int) : Except String F :=
  if b = 0 then .error "division by zero"
  else .ok (fl.div (fl.ofInt a) (fl.ofInt b))

/-- The loop `for _, num := range numbers { sum += num }` of
`CalculateAverage` (main.go 131-133), from the running sum `sum`. -/
def sumLoop (sum : Int) : List Int → Int
  | [] => sum
  | num :: rest => sumLoop (wrap64 (sum + num)) rest

/-- `Calculator.CalculateAverage` (main.go 125-136); `Except.error` is a panic
with the given value. -/
def Calculator.CalculateAverage {F : Type} (fl : FloatOps F) (numbers : List Int) :
    Except String F :=
  if numbers.length = 0 then .error "cannot calculate average of empty slice"
  else .ok (fl.div (fl.ofInt (sumLoop 0 numbers)) (fl.ofInt numbers.length))

/-! ### The driver -/

/-- An operand of a print call. -/
inductive Val (F : Type) where
  | str (s : String)
  | int (n : Int)
  | float (x : F)
  | ints (l : List Int)
  deriving DecidableEq, Repr

/-- One call of `fmt.Println`, `fmt.Printf` or `log.Printf`, with its
operands. -/
inductive Out (F : Type) where
  | println (args : List (Val F))
  | printf (format : String) (args : List (Val F))
  deriving DecidableEq, Repr

/-- What happens to files. -/
inductive FileOp (D : Type) where
  | create (name : String)
  | write (name : String) (doc : D)
  | close (name : String)
  deriving DecidableEq, Repr

/-- What the program takes from outside: `float64`, `os.Create` (`some` is
the error it returns) and the JSON encoder with its prefix and indent
(`Except.error` is the error `Encode` returns). -/
structure Lib (F D : Type) where
  fl : FloatOps F
  create : String → Option String
  encode : String → String → List Person → Except String D

/-- The state the driver works on: the `DataService` object that `service`
and `ds` point to, the store of entities, standard output, the standard
logger, and the file operations made so far. -/
structure World (F D : Type) where
  ds : DataService
  heap : Heap
  out : List (Out F)
  log : List (Out F)
  files : List (FileOp D)

/-- A piece of Go code that returns an `α` or panics (`Except.error`), and
leaves a state in both cases. -/
def Go (σ α : Type) : Type :=
  σ → Except String α × σ

/-- A return. -/
def Go.pure {σ α : Type} (a : α) : Go σ α :=
  fun w => (Except.ok a, w)

/-- Sequencing: a panic skips what follows. -/
def Go.bind {σ α β : Type} (m : Go σ α) (f : α → Go σ β) : Go σ β :=
  fun w =>
    match m w with
    | (Except.ok a, w1) => f a w1
    | (Except.error v, w1) => (Except.error v, w1)

instance (σ : Type) : Monad (Go σ) where
  pure := Go.pure
  bind := Go.bind

/-- A call of a function that may panic. -/
def call {σ α : Type} (r : Except String α) : Go σ α :=
  fun w => (r, w)

/-- `defer func() { r := recover(); ... }()` around a body: the handler runs
when the body is left, normally or by a panic, with what `recover()` returns
(`none` is nil); the panic, if any, stops there. -/
def deferRecover {σ : Type} (handler : Option String → Go σ Unit) (body : Go σ Unit) :
    Go σ Unit :=
  fun w =>
    match body w with
    | (Except.ok _, w1) => handler none w1
    | (Except.error v, w1) => handler (some v) w1

/-- `fmt.Println`. -/
def println {F D : Type} (args : List (Val F)) : Go (World F D) Unit :=
  fun w => (Except.ok (), { w with out := w.out ++ [Out.println args] })

/-- `fmt.Printf`. -/
def printf {F D : Type} (format : String) (args : List (Val F)) : Go (World F D) Unit :=
  fun w => (Except.ok (), { w with out := w.out ++ [Out.printf format args] })

/-- `ds.AddPerson(person)` on the state of the driver. -/
def addPerson {F D : Type} (person : Option Nat) : Go (World F D) (Option String) :=
  fun w =>
    (Except.ok (AddPerson w.ds w.heap person).err,
      { w with ds := (AddPerson w.ds w.heap person).ds,
               heap := (AddPerson w.ds w.heap person).heap })

/-- `savePeopleToFile` (main.go 139-155).  The encoder reads the entities
through the pointers of the slice; `defer file.Close()` closes the file on
both ways out. -/
def savePeopleToFile {F D : Type} (lib : Lib F D) (people : List Nat) (filename : String) :
    Go (World F D) (Option String) :=
  fun w =>
    match lib.create filename with
    | some err => (Except.ok (some ("failed to create file: " ++ err)), w)
    | none =>
      match lib.encode "" "  " (people.map w.heap.cells) with
      | Except.error err =>
        (Except.ok (some ("failed to encode JSON: " ++ err)),
          { w with files := w.files ++ [FileOp.create filename, FileOp.close filename] })
      | Except.ok doc =>
        (Except.ok none,
          { w with
            files := w.files ++
              [FileOp.create filename, FileOp.write filename doc, FileOp.close filename]
            log := w.log ++
              [Out.printf "Saved %d people to %s" [Val.int people.length, Val.str filename]] })

/-- A read of the object behind a pointer. -/
def deref {F D : Type} (p : Nat) : Go (World F D) Person :=
  fun w => (Except.ok (w.heap.cells p), w)

/-- `service := NewDataService()` on the state of the driver, at the clock
readings `t1`, `t2`, `t3`. -/
def newDataService {F D : Type} (t1 t2 t3 : Time) : Go (World F D) Unit :=
  fun w =>
    (Except.ok (),
      { w with ds := (NewDataService w.heap t1 t2 t3).1, heap := (NewDataService w.heap t1 t2 t3).2 })

/-- `service.GetAllPeople()` on the state of the driver. -/
def getAllPeople {F D : Type} : Go (World F D) (List Nat) :=
  fun w => (Except.ok (GetAllPeople w.ds).ret, { w with ds := (GetAllPeople w.ds).ds })

/-- `NewPerson(id, name, age, email)` on the state of the driver, at the clock
reading `now`. -/
def newPerson {F D : Type} (now : Time) (id : Int) (name : String) (age : Int)
    (email : String) : Go (World F D) Nat :=
  fun w =>
    (Except.ok (NewPerson w.heap now id name age email).1,
      { w with heap := (NewPerson w.heap now id name age email).2 })

/-- The statements of `demonstrateErrorHandling` after the `defer`
(main.go 168-179). -/
def demoBody {F D : Type} (lib : Lib F D) : Go (World F D) Unit := do
  let result ← call (Calculator.Divide lib.fl 10 2)
  printf "10 / 2 = %.2f\n" [.float result]
  let err ← addPerson none
  match err with
  | some e => printf "Error adding nil person: %v\n" [.str e]
  | none => pure ()
  let result ← call (Calculator.Divide lib.fl 10 0)
  printf "10 / 0 = %.2f\n" [.float result]

/-- `demonstrateErrorHandling` (main.go 158-180). -/
def demonstrateErrorHandling {F D : Type} (lib : Lib F D) : Go (World F D) Unit := do
  println [.str "\n--- Testing Error Handling ---"]
  deferRecover
    (fun r =>
      match r with
      | some v => printf "Recovered from panic: %v\n" [.str v]
      | none => pure ())
    (demoBody lib)

/-- The loop `for i, person := range people` of `main` (main.go 200-202),
from index `i`. -/
def printPeople {F D : Type} (i : Nat) : List Nat → Go (World F D) Unit
  | [] => pure ()
  | person :: rest => do
    let obj ← deref person
    printf "%d: %s\n" [.int ((i : Int) + 1), .str obj.String]
    printPeople (i + 1) rest

/-- The locals of `main` that are live at the call of `savePeopleToFile`. -/
structure MainLocals where
  people : List Nat
  newPerson : Nat

/-- The statements of `main` before the call of `savePeopleToFile`
(main.go 183-210); `t1`, `t2`, `t3`, `t4` are the four readings of the
clock. -/
def mainSetup {F D : Type} (lib : Lib F D) (t1 t2 t3 t4 : Time) :
    Go (World F D) MainLocals := do
  println [.str "Go Neovim Test Application"]
  println [.str ("=" ++ Sprintf "%*s" [.int 39, .str "="])]
  printf "5 + 3 = %d\n" [.int (Calculator.Add 5 3)]
  let q ← call (Calculator.Divide lib.fl 15 3)
  printf "15 / 3 = %.2f\n" [.float q]
  let numbers : List Int := [1, 2, 3, 4, 5]
  let avg ← call (Calculator.CalculateAverage lib.fl numbers)
  printf "Average of %v = %.2f\n" [.ints numbers, .float avg]
  newDataService t1 t2 t3
  let people ← getAllPeople
  printf "\nFound %d people:\n" [.int people.length]
  printPeople 0 people
  let newPerson ← newPerson t4 0 "David Wilson" 28 "david@newdomain.com"
  let err ← addPerson (some newPerson)
  match err with
  | some e => printf "Error adding person: %v\n" [.str e]
  | none => do
    let obj ← deref newPerson
    printf "Successfully added: %s\n" [.str obj.Name]
  pure { people := people, newPerson := newPerson }

/-- `main` (main.go 182-221). -/
def main {F D : Type} (lib : Lib F D) (t1 t2 t3 t4 : Time) : Go (World F D) Unit := do
  let l ← mainSetup lib t1 t2 t3 t4
  let err ← savePeopleToFile lib l.people "people.json"
  match err with
  | some e => printf "Error saving to file: %v\n" [.str e]
  | none => pure ()
  demonstrateErrorHandling lib
  println [.str "\nTest completed successfully!"]

/-- A library for trying the driver out: integers for `float64`, the list of
records itself for the document, no failures. -/
def testLib : Lib Int (List Person) :=
  { fl := { ofInt := fun n => n, div := fun a b => a / b }
    create := fun _ => none
    encode := fun _ _ rs => .ok rs }

/-- A state with an empty directory, nothing allocated and nothing printed. -/
def emptyWorld : World Int (List Person) :=
  { ds := { people := [], logger := [] }, heap := emptyHeap, out := [], log := [], files := [] }

/-! ### The snapshot document

Modelled from the spec: the document of section 6, "an ordered list of entity
records" with fields `id`, `name`, `age`, `email`, `created_at`, indented by
two spaces, as Go's `encoding/json` encoder writes it, and a reader of JSON
text for documents of that shape.  Neither is code of the repository. -/

/-- A value of a record: an integer or a string. -/
inductive JVal where
  | int (n : Int)
  | str (s : String)
  deriving DecidableEq, Repr

/-- The value of a hexadecimal digit. -/
def hexVal (c : Char) : Option Nat :=
  if '0' ≤ c ∧ c ≤ '9' then some (c.toNat - 48)
  else if 'a' ≤ c ∧ c ≤ 'f' then some (c.toNat - 87)
  else if 'A' ≤ c ∧ c ≤ 'F' then some (c.toNat - 55)
  else none

/-- The escape `\uXXXX` of a code point below `0x10000`. -/
def escapeU (n : Nat) : List Char :=
  ['\\', 'u', Nat.digitChar (n / 4096), Nat.digitChar (n / 256 % 16),
    Nat.digitChar (n / 16 % 16), Nat.digitChar (n % 16)]

/-- Modelled from the spec: how the encoder writes one character of a string:
the quote, the backslash, the control characters, the characters `<`, `>`,
`&` and the separators U+2028 and U+2029 are escaped, every other character is
copied. -/
def escapeChar (c : Char) : List Char :=
  if c = '"' then ['\\', '"']
  else if c = '\\' then ['\\', '\\']
  else if c = '\n' then ['\\', 'n']
  else if c = '\r' then ['\\', 'r']
  else if c = '\t' then ['\\', 't']
  else if c.toNat < 32 ∨ c = '<' ∨ c = '>' ∨ c = '&' ∨ c.toNat = 8232 ∨ c.toNat = 8233 then
    escapeU c.toNat
  else [c]

/-- Modelled from the spec: a JSON string literal. -/
def jsonString (s : String) : List Char :=
  '"' :: (s.data.flatMap escapeChar ++ ['"'])

/-- Modelled from the spec: the line break of the indented form at depth `d`:
a newline, the prefix, and `d` copies of the indent. -/
def newline (pfx indent : String) (d : Nat) : List Char :=
  '\n' :: (pfx.data ++ (List.replicate d indent.data).flatten)

/-- Modelled from the spec: one record, at depth 1 of the document.  The field
names are the `json` tags of `Person` (main.go 16-20); `fmtTime` is the
textual form of a timestamp. -/
def jsonPerson (fmtTime : Time → String) (pfx indent : String) (p : Person) : List Char :=
  '{' :: (newline pfx indent 2 ++ (jsonString "id" ++ (':' :: ' ' :: (fmtInt p.ID ++
    (',' :: (newline pfx indent 2 ++ (jsonString "name" ++ (':' :: ' ' :: (jsonString p.Name ++
    (',' :: (newline pfx indent 2 ++ (jsonString "age" ++ (':' :: ' ' :: (fmtInt p.Age ++
    (',' :: (newline pfx indent 2 ++ (jsonString "email" ++ (':' :: ' ' ::
      (jsonString p.Email ++
    (',' :: (newline pfx indent 2 ++ (jsonString "created_at" ++ (':' :: ' ' ::
      (jsonString (fmtTime p.CreatedAt) ++
    (newline pfx indent 1 ++ ['}'])))))))))))))))))))))))))

/-- Modelled from the spec: the records after the first, each behind a comma
and a line break. -/
def jsonMore (fmtTime : Time → String) (pfx indent : String) : List Person → List Char
  | [] => []
  | p :: ps =>
    ',' :: (newline pfx indent 1 ++ (jsonPerson fmtTime pfx indent p ++
      jsonMore fmtTime pfx indent ps))

/-- Modelled from the spec: the document `Encode` writes for a sequence of
records: an array, one record after the other, and a final newline. -/
def jsonPeople (fmtTime : Time → String) (pfx indent : String) : List Person → String
  | [] => String.mk ['[', ']', '\n']
  | p :: ps =>
    String.mk ('[' :: (newline pfx indent 1 ++ (jsonPerson fmtTime pfx indent p ++
      (jsonMore fmtTime pfx indent ps ++ (newline pfx indent 0 ++ [']', '\n'])))))

/-- The members the record of a `Person` holds, in order. -/
def members (fmtTime : Time → String) (p : Person) : List (String × JVal) :=
  [("id", .int p.ID), ("name", .str p.Name), ("age", .int p.Age), ("email", .str p.Email),
    ("created_at", .str (fmtTime p.CreatedAt))]

/-- A library whose encoder is `jsonPeople` and never fails. -/
def jsonLib {F : Type} (fl : FloatOps F) (create : String → Option String)
    (fmtTime : Time → String) : Lib F String :=
  { fl := fl
    create := create
    encode := fun pfx indent rs => .ok (jsonPeople fmtTime pfx indent rs) }

/-- White space of JSON text. -/
def isWs (c : Char) : Bool :=
  c = ' ' || c = '\n' || c = '\r' || c = '\t'

/-- The text after leading white space. -/
def skipWs : List Char → List Char
  | [] => []
  | c :: cs => if isWs c then skipWs cs else c :: cs

/-- The character a two-character escape stands for. -/
def unescape (e : Char) : Option Char :=
  if e = '"' then some '"'
  else if e = '\\' then some '\\'
  else if e = '/' then some '/'
  else if e = 'b' then some (Char.ofNat 8)
  else if e = 'f' then some (Char.ofNat 12)
  else if e = 'n' then some '\n'
  else if e = 'r' then some '\r'
  else if e = 't' then some '\t'
  else none

/-- Modelled from the spec: the reader of a string literal, after its opening
quote: the characters up to the closing quote, escapes resolved, and the text
after it. -/
def parseStrBody : List Char → Option (List Char × List Char)
  | [] => none
  | c :: rest =>
    if c = '"' then some ([], rest)
    else if c = '\\' then
      match rest with
      | [] => none
      | e :: rest2 =>
        if e = 'u' then
          match rest2 with
          | a :: b :: c2 :: d :: rest3 =>
            match hexVal a, hexVal b, hexVal c2, hexVal d, parseStrBody rest3 with
            | some x, some y, some z, some v, some (s, r) =>
              some (Char.ofNat (((x * 16 + y) * 16 + z) * 16 + v) :: s, r)
            | _, _, _, _, _ => none
          | _ => none
        else
          match unescape e, parseStrBody rest2 with
          | some ch, some (s, r) => some (ch :: s, r)
          | _, _ => none
    else
      match parseStrBody rest with
      | some (s, r) => some (c :: s, r)
      | none => none

/-- The number a sequence of decimal digits stands for. -/
def digitsVal (ds : List Char) : Nat :=
  ds.foldl (fun a d => 10 * a + (d.toNat - 48)) 0

/-- The reader of an unsigned decimal number. -/
def parseNat (cs : List Char) : Option (Nat × List Char) :=
  if cs.takeWhile Char.isDigit = [] then none
  else some (digitsVal (cs.takeWhile Char.isDigit), cs.dropWhile Char.isDigit)

/-- The reader of a decimal integer. -/
def parseInt : List Char → Option (Int × List Char)
  | [] => none
  | c :: cs =>
    if c = '-' then
      match parseNat cs with
      | some (n, r) => some (-(n : Int), r)
      | none => none
    else
      match parseNat (c :: cs) with
      | some (n, r) => some ((n : Int), r)
      | none => none

/-- The reader of a value. -/
def parseValue : List Char → Option (JVal × List Char)
  | [] => none
  | c :: cs =>
    if c = '"' then
      match parseStrBody cs with
      | some (s, r) => some (JVal.str (String.mk s), r)
      | none => none
    else
      match parseInt (c :: cs) with
      | some (n, r) => some (JVal.int n, r)
      | none => none

/-- The reader of one member `"key": value` of a record. -/
def parseMember : List Char → Option ((String × JVal) × List Char)
  | [] => none
  | c :: cs =>
    if c = '"' then
      match parseStrBody cs with
      | some (k, r) =>
        match skipWs r with
        | [] => none
        | c2 :: r2 =>
          if c2 = ':' then
            match parseValue (skipWs r2) with
            | some (v, r3) => some ((String.mk k, v), r3)
            | none => none
          else none
      | none => none
    else none

/-- The members of a record after the first: each behind a comma, up to the
closing brace.  `fuel` bounds their number. -/
def parseMembers : Nat → List Char → Option (List (String × JVal) × List Char)
  | 0, _ => none
  | fuel + 1, cs =>
    match skipWs cs with
    | [] => none
    | c :: r =>
      if c = '}' then some ([], r)
      else if c = ',' then
        match parseMember (skipWs r) with
        | some (m, r2) =>
          match parseMembers fuel r2 with
          | some (ms, r3) => some (m :: ms, r3)
          | none => none
        | none => none
      else none

/-- The reader of a record: `{`, members separated by commas, `}`. -/
def parseObject : List Char → Option (List (String × JVal) × List Char)
  | [] => none
  | c :: cs =>
    if c = '{' then
      match skipWs cs with
      | [] => none
      | c2 :: r =>
        if c2 = '}' then some ([], r)
        else
          match parseMember (c2 :: r) with
          | some (m, r2) =>
            match parseMembers r2.length r2 with
            | some (ms, r3) => some (m :: ms, r3)
            | none => none
          | none => none
    else none

/-- The records of an array after the first: each behind a comma, up to the
closing bracket.  `fuel` bounds their number. -/
def parseObjects : Nat → List Char → Option (List (List (String × JVal)) × List Char)
  | 0, _ => none
  | fuel + 1, cs =>
    match skipWs cs with
    | [] => none
    | c :: r =>
      if c = ']' then some ([], r)
      else if c = ',' then
        match parseObject (skipWs r) with
        | some (o, r2) =>
          match parseObjects fuel r2 with
          | some (os, r3) => some (o :: os, r3)
          | none => none
        | none => none
      else none

/-- The reader of a document: an array of records and nothing but white space
around it. -/
def parseArray (doc : List Char) : Option (List (List (String × JVal))) :=
  match skipWs doc with
  | [] => none
  | c :: cs =>
    if c = '[' then
      match skipWs cs with
      | [] => none
      | c2 :: r =>
        if c2 = ']' then (if skipWs r = [] then some [] else none)
        else
          match parseObject (c2 :: r) with
          | some (o, r2) =>
            match parseObjects r2.length r2 with
            | some (os, r3) => if skipWs r3 = [] then some (o :: os) else none
            | none => none
          | none => none
    else none

/-- One member stored into a `Person`, by the `json` tags of main.go 16-20: a
member with another name is skipped, a member of the wrong type is an error.
`parseTime` reads a timestamp. -/
def setField (parseTime : String → Time) (p : Person) (m : String × JVal) : Option Person :=
  if m.1 = "id" then
    match m.2 with
    | .int n => some { p with ID := n }
    | .str _ => none
  else if m.1 = "name" then
    match m.2 with
    | .str s => some { p with Name := s }
    | .int _ => none
  else if m.1 = "age" then
    match m.2 with
    | .int n => some { p with Age := n }
    | .str _ => none
  else if m.1 = "email" then
    match m.2 with
    | .str s => some { p with Email := s }
    | .int _ => none
  else if m.1 = "created_at" then
    match m.2 with
    | .str s => some { p with CreatedAt := parseTime s }
    | .int _ => none
  else some p

/-- The `Person` a record decodes to, from the zero `Person`. -/
def decodePerson (parseTime : String → Time) (ms : List (String × JVal)) : Option Person :=
  ms.foldlM (setField parseTime)
    { ID := 0, Name := "", Age := 0, Email := "", CreatedAt := 0 }

/-- Modelled from the spec: a document "parsed back": the records it holds, in
order. -/
def parsePeople (parseTime : String → Time) (doc : String) : Option (List Person) :=
  match parseArray doc.data with
  | some os => os.mapM (decodePerson parseTime)
  | none => none

/-- The representation invariant of a directory in a store: its entities
are allocated, their emails are pairwise different, and the entity at position
`i` carries the identifier `i + 1`. -/
structure Inv (s : DataService × Heap) : Prop where
  allocated : ∀ q ∈ s.1.people, q < s.2.next
  emails : (s.1.people.map fun q => (s.2.cells q).Email).Nodup
  ids : ∀ (i : Nat) (q : Nat), s.1.people[i]? = some q → (s.2.cells q).ID = (i : Int) + 1

end NvimGo

namespace NvimGo

/-! ## The lookup loop -/

@[simp] theorem emit_people (ds : DataService) (e : LogEntry) :
    (ds.emit e).people = ds.people := rfl

theorem findLoop_eq_none_iff (h : Heap) (email : String) (l : List Nat) :
    findLoop h email l = none ↔ ∀ q ∈ l, (h.cells q).Email ≠ email := by
  induction l with
  | nil => simp [findLoop]
  | cons a l ih =>
    by_cases ha : (h.cells a).Email = email
    · simp [findLoop, ha]
    · simp [findLoop, ha, ih]

theorem findLoop_eq_some_iff (h : Heap) (email : String) (l : List Nat) (p : Nat) :
    findLoop h email l = some p ↔
      ∃ i : Nat, l[i]? = some p ∧ (h.cells p).Email = email ∧
        ∀ (j : Nat) (q : Nat), j < i → l[j]? = some q → (h.cells q).Email ≠ email := by
  induction l with
  | nil => simp [findLoop]
  | cons a l ih =>
    by_cases ha : (h.cells a).Email = email
    · simp only [findLoop, ha, if_true, Option.some.injEq]
      constructor
      · rintro rfl
        exact ⟨0, by simp, ha, fun j q hj => absurd hj (Nat.not_lt_zero j)⟩
      · rintro ⟨i, hi, -, hmin⟩
        cases i with
        | zero => simpa using hi
        | succ k => exact absurd ha (hmin 0 a (Nat.succ_pos k) (by simp))
    · simp only [findLoop, ha, if_false, ih]
      constructor
      · rintro ⟨i, hi, he, hmin⟩
        refine ⟨i + 1, by simpa using hi, he, ?_⟩
        intro j q hj hq
        cases j with
        | zero =>
          have : a = q := by simpa using hq
          exact this ▸ ha
        | succ k => exact hmin k q (by omega) (by simpa using hq)
      · rintro ⟨i, hi, he, hmin⟩
        cases i with
        | zero =>
          have : a = p := by simpa using hi
          exact absurd (this ▸ he) ha
        | succ k =>
          refine ⟨k, by simpa using hi, he, ?_⟩
          intro j q hj hq
          exact hmin (j + 1) q (by omega) (by simpa using hq)

theorem findLoop_mem (h : Heap) (email : String) (l : List Nat) (p : Nat)
    (hp : findLoop h email l = some p) : p ∈ l ∧ (h.cells p).Email = email := by
  obtain ⟨i, hi, he, -⟩ := (findLoop_eq_some_iff h email l p).1 hp
  exact ⟨List.getElem?_mem hi, he⟩

@[simp] theorem find_ret (ds : DataService) (h : Heap) (email : String) :
    (FindPersonByEmail ds h email).ret = findLoop h email ds.people := by
  unfold FindPersonByEmail
  cases findLoop h email ds.people <;> rfl

@[simp] theorem find_people (ds : DataService) (h : Heap) (email : String) :
    (FindPersonByEmail ds h email).ds.people = ds.people := by
  unfold FindPersonByEmail
  cases findLoop h email ds.people <;> rfl

/-! ## The three outcomes of `AddPerson` -/

theorem add_nil (ds : DataService) (h : Heap) :
    AddPerson ds h none = { err := some "person cannot be nil", ds := ds, heap := h } := rfl

theorem add_dup (ds : DataService) (h : Heap) (p q : Nat)
    (hq : findLoop h (h.cells p).Email ds.people = some q) :
    AddPerson ds h (some p) =
      { err := some ("person with email " ++ (h.cells p).Email ++ " already exists"),
        ds := (FindPersonByEmail ds h (h.cells p).Email).ds, heap := h } := by
  have hr := find_ret ds h (h.cells p).Email
  rw [hq] at hr
  simp only [AddPerson, hr]

theorem add_fresh (ds : DataService) (h : Heap) (p : Nat)
    (hq : findLoop h (h.cells p).Email ds.people = none) :
    (AddPerson ds h (some p)).err = none ∧
    (AddPerson ds h (some p)).ds.people = ds.people ++ [p] ∧
    (AddPerson ds h (some p)).heap = h.setID p ((ds.people.length : Int) + 1) := by
  have hr := find_ret ds h (h.cells p).Email
  rw [hq] at hr
  simp only [AddPerson, hr, emit_people, find_people, and_self]

/-! ## Sequences of calls -/

theorem run_append (s : DataService × Heap) (cs ds : List Call) :
    run s (cs ++ ds) = run (run s cs) ds := by
  induction cs generalizing s with
  | nil => rfl
  | cons c cs ih => exact ih (step s c)

theorem okRun_append (s : DataService × Heap) (cs ds : List Call) :
    okRun s (cs ++ ds) = (okRun s cs && okRun (run s cs) ds) := by
  induction cs generalizing s with
  | nil => simp [okRun, run]
  | cons c cs ih => simp [okRun, run, ih, Bool.and_assoc]

theorem step_people (s : DataService × Heap) (c : Call) :
    (step s c).1.people = s.1.people ++ added s [c] := by
  cases c with
  | make p => simp [step, added]
  | find email => simp [step, added]
  | list => simp [step, added, GetAllPeople]
  | add person =>
    cases person with
    | none => simp [step, added, add_nil]
    | some p =>
      cases hq : findLoop s.2 (s.2.cells p).Email s.1.people with
      | none =>
        obtain ⟨he, hp, -⟩ := add_fresh s.1 s.2 p hq
        simp [step, added, he, hp]
      | some q =>
        have hd := add_dup s.1 s.2 p q hq
        simp [step, added, hd]

theorem added_cons (s : DataService × Heap) (c : Call) (cs : List Call) :
    added s (c :: cs) = added s [c] ++ added (step s c) cs := by
  simp [added]

theorem run_people (s : DataService × Heap) (cs : List Call) :
    (run s cs).1.people = s.1.people ++ added s cs := by
  induction cs generalizing s with
  | nil => simp [run, added]
  | cons c cs ih =>
    rw [added_cons, ← List.append_assoc, ← step_people]
    exact ih (step s c)

/-! ## The invariant holds initially and is kept by every call -/

theorem inv_init (h : Heap) (t1 t2 t3 : Time) : Inv (NewDataService h t1 t2 t3) := by
  refine ⟨?_, ?_, ?_⟩
  · intro q hq
    simp only [NewDataService, NewPerson, Heap.alloc, List.mem_cons, List.mem_singleton,
      List.not_mem_nil, or_false] at hq ⊢
    omega
  · have h2 : h.next ≠ h.next + 1 + 1 := by omega
    simp [NewDataService, NewPerson, Heap.alloc, Function.update, h2]
  · intro i q hq
    match i with
    | 0 =>
      have : h.next = q := by simpa [NewDataService, NewPerson, Heap.alloc] using hq
      subst this
      have h2 : h.next ≠ h.next + 1 + 1 := by omega
      simp [NewDataService, NewPerson, Heap.alloc, Function.update, h2]
    | 1 =>
      have : h.next + 1 = q := by simpa [NewDataService, NewPerson, Heap.alloc] using hq
      subst this
      simp [NewDataService, NewPerson, Heap.alloc, Function.update]
    | 2 =>
      have : h.next + 1 + 1 = q := by simpa [NewDataService, NewPerson, Heap.alloc] using hq
      subst this
      simp [NewDataService, NewPerson, Heap.alloc, Function.update]
    | k + 3 => simp [NewDataService] at hq

theorem inv_of_eq (s t : DataService × Heap) (hp : t.1.people = s.1.people) (hh : t.2 = s.2)
    (hI : Inv s) : Inv t := by
  refine ⟨?_, ?_, ?_⟩
  · rw [hp, hh]; exact hI.allocated
  · rw [hp, hh]; exact hI.emails
  · rw [hp, hh]; exact hI.ids

theorem make_cells (s : DataService × Heap) (p : Person) (hI : Inv s) (q : Nat)
    (hq : q ∈ s.1.people) : (s.2.alloc p).2.cells q = s.2.cells q := by
  have hlt := hI.allocated q hq
  simp [Heap.alloc, Function.update, Nat.ne_of_lt hlt]

theorem inv_make (s : DataService × Heap) (p : Person) (hI : Inv s) :
    Inv (s.1, (s.2.alloc p).2) := by
  refine ⟨fun q hq => ?_, ?_, ?_⟩
  · have hlt := hI.allocated q hq
    show q < s.2.next + 1
    omega
  · have hm : (s.1.people.map fun q => ((s.2.alloc p).2.cells q).Email) =
        s.1.people.map fun q => (s.2.cells q).Email :=
      List.map_congr_left (fun q hq => by rw [make_cells s p hI q hq])
    show (s.1.people.map fun q => ((s.2.alloc p).2.cells q).Email).Nodup
    rw [hm]
    exact hI.emails
  · intro i q hq
    show ((s.2.alloc p).2.cells q).ID = (i : Int) + 1
    rw [make_cells s p hI q (List.getElem?_mem hq)]
    exact hI.ids i q hq

theorem setID_cells_of_ne (h : Heap) (p q : Nat) (id : Int) (hne : q ≠ p) :
    (h.setID p id).cells q = h.cells q := by
  simp [Heap.setID, Function.update, hne]

theorem setID_cells_self (h : Heap) (p : Nat) (id : Int) :
    (h.setID p id).cells p = { h.cells p with ID := id } := by
  simp [Heap.setID]

theorem fresh_not_mem (s : DataService × Heap) (p : Nat)
    (hq : findLoop s.2 (s.2.cells p).Email s.1.people = none) : p ∉ s.1.people :=
  fun hmem => (findLoop_eq_none_iff _ _ _).1 hq p hmem rfl

theorem inv_add_fresh (s : DataService × Heap) (p : Nat) (hI : Inv s) (hp : p < s.2.next)
    (hq : findLoop s.2 (s.2.cells p).Email s.1.people = none) :
    Inv (step s (.add (some p))) := by
  obtain ⟨-, hpeople, hheap⟩ := add_fresh s.1 s.2 p hq
  have hfresh := (findLoop_eq_none_iff _ _ _).1 hq
  have hnot := fresh_not_mem s p hq
  have hc : ∀ q ∈ s.1.people,
      ((AddPerson s.1 s.2 (some p)).heap).cells q = s.2.cells q := by
    intro q hmem
    rw [hheap]
    exact setID_cells_of_ne _ _ _ _ (fun e => hnot (e ▸ hmem))
  have hself : ((AddPerson s.1 s.2 (some p)).heap).cells p =
      { s.2.cells p with ID := (s.1.people.length : Int) + 1 } := by
    rw [hheap]; exact setID_cells_self _ _ _
  refine ⟨?_, ?_, ?_⟩
  · intro q hmem
    simp only [step, hpeople, List.mem_append, List.mem_singleton] at hmem
    show q < (AddPerson s.1 s.2 (some p)).heap.next
    rw [hheap]
    rcases hmem with hmem | rfl
    · exact hI.allocated q hmem
    · exact hp
  · show ((AddPerson s.1 s.2 (some p)).ds.people.map
      fun q => ((AddPerson s.1 s.2 (some p)).heap.cells q).Email).Nodup
    rw [hpeople, List.map_append]
    have hm : (s.1.people.map fun q => ((AddPerson s.1 s.2 (some p)).heap.cells q).Email) =
        s.1.people.map fun q => (s.2.cells q).Email :=
      List.map_congr_left (fun q hmem => by rw [hc q hmem])
    rw [hm]
    refine List.Nodup.append hI.emails (by simp) ?_
    intro e he1 he2
    obtain ⟨q, hmem, rfl⟩ := List.mem_map.1 he1
    simp only [List.map_cons, List.map_nil, List.mem_singleton, hself] at he2
    exact hfresh q hmem he2
  · intro i q hget
    show ((AddPerson s.1 s.2 (some p)).heap.cells q).ID = (i : Int) + 1
    simp only [step, hpeople] at hget
    by_cases hi : i < s.1.people.length
    · rw [List.getElem?_append_left hi] at hget
      rw [hc q (List.getElem?_mem hget)]
      exact hI.ids i q hget
    · rw [List.getElem?_append_right (Nat.le_of_not_lt hi)] at hget
      have hmem : q ∈ [p] := List.getElem?_mem hget
      have hqp : q = p := by simpa using hmem
      subst hqp
      have hi0 : i - s.1.people.length = 0 := by
        by_contra hne
        obtain ⟨k, hk⟩ := Nat.exists_eq_succ_of_ne_zero hne
        rw [hk] at hget
        simp at hget
      have : i = s.1.people.length := by omega
      rw [hself, this]

theorem inv_step (s : DataService × Heap) (c : Call) (hI : Inv s) (hok : c.ok s.2 = true) :
    Inv (step s c) := by
  cases c with
  | make p => exact inv_make s p hI
  | find email => exact inv_of_eq s _ (by simp [step]) rfl hI
  | list => exact inv_of_eq s _ (by simp [step, GetAllPeople]) rfl hI
  | add person =>
    cases person with
    | none => exact inv_of_eq s _ rfl rfl hI
    | some p =>
      cases hq : findLoop s.2 (s.2.cells p).Email s.1.people with
      | none => exact inv_add_fresh s p hI (by simpa [Call.ok] using hok) hq
      | some q =>
        have hd := add_dup s.1 s.2 p q hq
        exact inv_of_eq s _ (by simp [step, hd]) (by simp [step, hd]) hI

theorem inv_run (s : DataService × Heap) (cs : List Call) (hI : Inv s)
    (hok : okRun s cs = true) : Inv (run s cs) := by
  induction cs generalizing s with
  | nil => exact hI
  | cons c cs ih =>
    simp only [okRun, Bool.and_eq_true] at hok
    exact ih (step s c) (inv_step s c hI hok.1) hok.2

/-! ## Entities of the directory are not touched by later calls -/

theorem add_err_none_iff (ds : DataService) (h : Heap) (p : Nat) :
    (AddPerson ds h (some p)).err = none ↔
      findLoop h (h.cells p).Email ds.people = none := by
  cases hq : findLoop h (h.cells p).Email ds.people with
  | none => simp [(add_fresh ds h p hq).1]
  | some q => simp [add_dup ds h p q hq]

theorem cells_step (s : DataService × Heap) (c : Call) (hI : Inv s) (q : Nat)
    (hq : q ∈ s.1.people) : (step s c).2.cells q = s.2.cells q := by
  cases c with
  | make p => exact make_cells s p hI q hq
  | find email => rfl
  | list => rfl
  | add person =>
    cases person with
    | none => rfl
    | some p =>
      cases hf : findLoop s.2 (s.2.cells p).Email s.1.people with
      | none =>
        show (AddPerson s.1 s.2 (some p)).heap.cells q = s.2.cells q
        rw [(add_fresh s.1 s.2 p hf).2.2]
        exact setID_cells_of_ne _ _ _ _ (fun e => fresh_not_mem s p hf (e ▸ hq))
      | some r =>
        show (AddPerson s.1 s.2 (some p)).heap.cells q = s.2.cells q
        rw [add_dup s.1 s.2 p r hf]

theorem cells_run (s : DataService × Heap) (cs : List Call) (hI : Inv s)
    (hok : okRun s cs = true) (q : Nat) (hq : q ∈ s.1.people) :
    (run s cs).2.cells q = s.2.cells q := by
  induction cs generalizing s with
  | nil => rfl
  | cons c cs ih =>
    simp only [okRun, Bool.and_eq_true] at hok
    have hmem : q ∈ (step s c).1.people := by
      rw [step_people]; exact List.mem_append_left _ hq
    show (run (step s c) cs).2.cells q = s.2.cells q
    rw [ih (step s c) (inv_step s c hI hok.1) hok.2 hmem]
    exact cells_step s c hI q hq

theorem find_of_mem (s : DataService × Heap) (hI : Inv s) (p : Nat) (hp : p ∈ s.1.people) :
    findLoop s.2 (s.2.cells p).Email s.1.people = some p := by
  cases hf : findLoop s.2 (s.2.cells p).Email s.1.people with
  | none => exact absurd rfl ((findLoop_eq_none_iff _ _ _).1 hf p hp)
  | some q =>
    obtain ⟨hq, he⟩ := findLoop_mem _ _ _ _ hf
    rw [List.inj_on_of_nodup_map hI.emails hq hp he]

theorem seed_cells (h : Heap) (t1 t2 t3 : Time) :
    (NewDataService h t1 t2 t3).1.people = [h.next, h.next + 1, h.next + 2] ∧
    ((NewDataService h t1 t2 t3).2.cells h.next).Email = "alice@example.com" ∧
    ((NewDataService h t1 t2 t3).2.cells (h.next + 1)).Email = "bob@test.org" ∧
    ((NewDataService h t1 t2 t3).2.cells (h.next + 2)).Email = "carol@company.com" := by
  have h2 : h.next ≠ h.next + 1 + 1 := by omega
  simp [NewDataService, NewPerson, Heap.alloc, Function.update, h2]

/-! ## The claims -/

/-- C1, uniqueness invariant.  Start from `NewDataService` on any store and
make any finite sequence of calls (entity creations, `AddPerson` with nil or
with any pointer to an allocated entity, lookups, listings).  In the directory
that results, two entities at different positions never have the same
`Email`. -/
theorem unique_emails_reachable (h0 : Heap) (t1 t2 t3 : Time) (cs : List Call)
    (hok : okRun (NewDataService h0 t1 t2 t3) cs = true)
    (i j p q : Nat) (hij : i ≠ j)
    (hp : (run (NewDataService h0 t1 t2 t3) cs).1.people[i]? = some p)
    (hq : (run (NewDataService h0 t1 t2 t3) cs).1.people[j]? = some q) :
    ((run (NewDataService h0 t1 t2 t3) cs).2.cells p).Email ≠
      ((run (NewDataService h0 t1 t2 t3) cs).2.cells q).Email := by
  have hI := inv_run _ cs (inv_init h0 t1 t2 t3) hok
  intro he
  apply hij
  have hi : i < (run (NewDataService h0 t1 t2 t3) cs).1.people.length :=
    (List.getElem?_eq_some_iff.1 hp).1
  refine List.getElem?_inj (by simpa using hi) hI.emails ?_
  simp only [List.getElem?_map, hp, hq, Option.map_some', he]

/-- C1 at a concrete run: after creating David and adding him twice (the
second call fails), positions 0 and 3 hold different emails. -/
theorem unique_emails_reachable_witness :
    okRun (NewDataService emptyHeap 0 0 0)
        [.make (david 5), .add (some 3), .add (some 3), .add none] = true ∧
      ((run (NewDataService emptyHeap 0 0 0)
          [.make (david 5), .add (some 3), .add (some 3), .add none]).2.cells 0).Email ≠
      ((run (NewDataService emptyHeap 0 0 0)
          [.make (david 5), .add (some 3), .add (some 3), .add none]).2.cells 3).Email :=
  ⟨by decide,
    unique_emails_reachable emptyHeap 0 0 0
      [.make (david 5), .add (some 3), .add (some 3), .add none] (by decide) 0 3 0 3
      (by decide) (by decide) (by decide)⟩

/-- C2, duplicate rejection.  When the entity passed to `AddPerson` has the
`Email` of an entity `q` of the directory, the call returns the duplicate
error, the sequence of the directory is the same list as before, and the
store, hence every identifier, is untouched. -/
theorem add_duplicate_rejected (ds : DataService) (h : Heap) (p q : Nat)
    (hq : q ∈ ds.people) (he : (h.cells q).Email = (h.cells p).Email) :
    (AddPerson ds h (some p)).err =
        some ("person with email " ++ (h.cells p).Email ++ " already exists") ∧
      (AddPerson ds h (some p)).ds.people = ds.people ∧
      (AddPerson ds h (some p)).heap = h := by
  cases hf : findLoop h (h.cells p).Email ds.people with
  | none => exact absurd he ((findLoop_eq_none_iff _ _ _).1 hf q hq)
  | some r =>
    rw [add_dup ds h p r hf]
    exact ⟨rfl, find_people _ _ _, rfl⟩

/-- C2 at a concrete input: a second entity with Alice's email is refused. -/
theorem add_duplicate_rejected_witness :
    (AddPerson (NewDataService emptyHeap 0 0 0).1
        ((NewDataService emptyHeap 0 0 0).2.alloc
          { ID := 0, Name := "Alice Two", Age := 41, Email := "alice@example.com",
            CreatedAt := 7 }).2 (some 3)).ds.people = [0, 1, 2] :=
  (add_duplicate_rejected (NewDataService emptyHeap 0 0 0).1
    ((NewDataService emptyHeap 0 0 0).2.alloc
      { ID := 0, Name := "Alice Two", Age := 41, Email := "alice@example.com",
        CreatedAt := 7 }).2 3 0 (by decide) (by decide)).2.1

/-- C3, null rejection.  `AddPerson(nil)` returns the error "person cannot be
nil" and leaves the directory and the store exactly as they were. -/
theorem add_nil_rejected (ds : DataService) (h : Heap) :
    (AddPerson ds h none).err = some "person cannot be nil" ∧
      (AddPerson ds h none).ds = ds ∧
      (AddPerson ds h none).ds.people = ds.people ∧
      (AddPerson ds h none).heap = h :=
  ⟨rfl, rfl, rfl, rfl⟩

/-- C4, identifier assignment.  When the directory holds `k` entities and the
`Email` of `p` is not among theirs, `AddPerson` returns no error, the sequence
becomes the old one followed by `p` (so `k + 1` entities, `p` last), and the
`ID` of `p` is `k + 1`, whatever the store held in that field before. -/
theorem add_assigns_identifier (ds : DataService) (h : Heap) (p : Nat)
    (hfresh : ∀ q ∈ ds.people, (h.cells q).Email ≠ (h.cells p).Email) :
    (AddPerson ds h (some p)).err = none ∧
      (AddPerson ds h (some p)).ds.people = ds.people ++ [p] ∧
      (AddPerson ds h (some p)).ds.people.length = ds.people.length + 1 ∧
      (AddPerson ds h (some p)).ds.people.getLast? = some p ∧
      ((AddPerson ds h (some p)).heap.cells p).ID = (ds.people.length : Int) + 1 := by
  obtain ⟨he, hp, hh⟩ := add_fresh ds h p ((findLoop_eq_none_iff _ _ _).2 hfresh)
  refine ⟨he, hp, ?_, ?_, ?_⟩
  · rw [hp]; simp
  · rw [hp]; exact List.getLast?_concat _
  · rw [hh, setID_cells_self]

/-- C4 at a concrete input: David, created with identifier 0 as in `main`,
gets identifier 4 in the seeded directory. -/
theorem add_assigns_identifier_witness :
    ((AddPerson (NewDataService emptyHeap 0 0 0).1
        ((NewDataService emptyHeap 0 0 0).2.alloc (david 5)).2 (some 3)).heap.cells 3).ID = 4 :=
  (add_assigns_identifier (NewDataService emptyHeap 0 0 0).1
    ((NewDataService emptyHeap 0 0 0).2.alloc (david 5)).2 3 (by decide)).2.2.2.2

/-- C5, `AddPerson` fails exactly when it must: it returns an error if and
only if the argument is nil or its `Email` equals the `Email` of an entity of
the directory. -/
theorem add_error_iff (ds : DataService) (h : Heap) (person : Option Nat) :
    (AddPerson ds h person).err ≠ none ↔
      (person = none ∨
        ∃ p, person = some p ∧ ∃ q ∈ ds.people, (h.cells q).Email = (h.cells p).Email) := by
  cases person with
  | none => simp [add_nil]
  | some p =>
    rw [Ne, add_err_none_iff, findLoop_eq_none_iff]
    simp

/-- C6, lookup is first exact match.  `FindPersonByEmail` leaves the sequence
of the directory as it was; it returns nil exactly when no entity of the
sequence has the given `Email`; and it returns `p` exactly when `p` stands at
a position `i` of the sequence, has the given `Email` (string equality, no
normalisation), and no entity at a position before `i` has it. -/
theorem find_first_exact_match (ds : DataService) (h : Heap) (email : String) :
    (FindPersonByEmail ds h email).ds.people = ds.people ∧
      ((FindPersonByEmail ds h email).ret = none ↔
        ∀ q ∈ ds.people, (h.cells q).Email ≠ email) ∧
      ∀ p : Nat, (FindPersonByEmail ds h email).ret = some p ↔
        ∃ i : Nat, ds.people[i]? = some p ∧ (h.cells p).Email = email ∧
          ∀ (j : Nat) (q : Nat), j < i → ds.people[j]? = some q →
            (h.cells q).Email ≠ email := by
  refine ⟨find_people ds h email, ?_, fun p => ?_⟩
  · rw [find_ret]; exact findLoop_eq_none_iff h email ds.people
  · rw [find_ret]; exact findLoop_eq_some_iff h email ds.people p

/-- C7, lookup after insertion.  Take a directory reached from
`NewDataService` by a sequence `cs` of calls.  Whenever `cs` contains a
successful `AddPerson(p)`, looking up the email `p` had at that call returns
`p` at the end of `cs` (whatever followed the call, nothing included), and `p`
is still the object the call left, with the identifier it assigned.  And an
email that is none of the three seed emails and the email of no successfully
added entity is looked up as nil. -/
theorem lookup_after_insertion (h0 : Heap) (t1 t2 t3 : Time) (cs : List Call)
    (hok : okRun (NewDataService h0 t1 t2 t3) cs = true) :
    (∀ (pre post : List Call) (p : Nat), cs = pre ++ Call.add (some p) :: post →
      (AddPerson (run (NewDataService h0 t1 t2 t3) pre).1
        (run (NewDataService h0 t1 t2 t3) pre).2 (some p)).err = none →
      (FindPersonByEmail (run (NewDataService h0 t1 t2 t3) cs).1
          (run (NewDataService h0 t1 t2 t3) cs).2
          ((AddPerson (run (NewDataService h0 t1 t2 t3) pre).1
            (run (NewDataService h0 t1 t2 t3) pre).2 (some p)).heap.cells p).Email).ret
          = some p ∧
        (run (NewDataService h0 t1 t2 t3) cs).2.cells p =
          (AddPerson (run (NewDataService h0 t1 t2 t3) pre).1
            (run (NewDataService h0 t1 t2 t3) pre).2 (some p)).heap.cells p ∧
        ((run (NewDataService h0 t1 t2 t3) cs).2.cells p).ID =
          ((run (NewDataService h0 t1 t2 t3) pre).1.people.length : Int) + 1) ∧
    (∀ email : String, email ≠ "alice@example.com" → email ≠ "bob@test.org" →
      email ≠ "carol@company.com" →
      (∀ q ∈ added (NewDataService h0 t1 t2 t3) cs,
        ((run (NewDataService h0 t1 t2 t3) cs).2.cells q).Email ≠ email) →
      (FindPersonByEmail (run (NewDataService h0 t1 t2 t3) cs).1
        (run (NewDataService h0 t1 t2 t3) cs).2 email).ret = none) := by
  have hI0 := inv_init h0 t1 t2 t3
  constructor
  · intro pre post p hcs hadd
    subst hcs
    rw [okRun_append, Bool.and_eq_true] at hok
    obtain ⟨hokpre, hokrest⟩ := hok
    simp only [okRun, Bool.and_eq_true] at hokrest
    have hIpre := inv_run _ pre hI0 hokpre
    have hf := (add_err_none_iff _ _ _).1 hadd
    have hI1 := inv_step _ (.add (some p)) hIpre hokrest.1
    have hmem1 : p ∈ (step (run (NewDataService h0 t1 t2 t3) pre) (.add (some p))).1.people := by
      show p ∈ (AddPerson _ _ (some p)).ds.people
      rw [(add_fresh _ _ p hf).2.1]; simp
    have hrun : run (NewDataService h0 t1 t2 t3) (pre ++ Call.add (some p) :: post) =
        run (step (run (NewDataService h0 t1 t2 t3) pre) (.add (some p))) post := by
      rw [run_append]; rfl
    have hI2 := inv_run _ post hI1 hokrest.2
    have hmem2 : p ∈ (run (step (run (NewDataService h0 t1 t2 t3) pre)
        (.add (some p))) post).1.people := by
      rw [run_people]; exact List.mem_append_left _ hmem1
    have hcells := cells_run _ post hI1 hokrest.2 p hmem1
    have hstep : (step (run (NewDataService h0 t1 t2 t3) pre) (.add (some p))).2 =
        (AddPerson (run (NewDataService h0 t1 t2 t3) pre).1
          (run (NewDataService h0 t1 t2 t3) pre).2 (some p)).heap := rfl
    rw [hrun]
    rw [hstep] at hcells
    refine ⟨?_, hcells, ?_⟩
    · rw [find_ret, ← hcells]
      exact find_of_mem _ hI2 p hmem2
    · rw [hcells, (add_fresh _ _ p hf).2.2, setID_cells_self]
  · intro email ha hb hc hadded
    rw [find_ret, findLoop_eq_none_iff]
    intro q hq
    rw [run_people] at hq
    rcases List.mem_append.1 hq with hseed | hq
    · obtain ⟨hpeople, ea, eb, ec⟩ := seed_cells h0 t1 t2 t3
      rw [cells_run _ cs hI0 hok q hseed]
      rw [hpeople] at hseed
      simp only [List.mem_cons, List.mem_singleton, List.not_mem_nil, or_false] at hseed
      rcases hseed with rfl | rfl | rfl
      · rw [ea]; exact fun e => ha e.symm
      · rw [eb]; exact fun e => hb e.symm
      · rw [ec]; exact fun e => hc e.symm
    · exact hadded q hq

/-- C7 at a concrete run: David is added, then Erin; David is still found
under his email, with identifier 4. -/
theorem lookup_after_insertion_witness :
    (FindPersonByEmail
        (run (NewDataService emptyHeap 0 0 0)
          [.make (david 5), .add (some 3),
            .make { ID := 9, Name := "Erin", Age := 17, Email := "erin@x.com", CreatedAt := 6 },
            .add (some 4)]).1
        (run (NewDataService emptyHeap 0 0 0)
          [.make (david 5), .add (some 3),
            .make { ID := 9, Name := "Erin", Age := 17, Email := "erin@x.com", CreatedAt := 6 },
            .add (some 4)]).2
        "david@newdomain.com").ret = some 3 :=
  ((lookup_after_insertion emptyHeap 0 0 0
      [.make (david 5), .add (some 3),
        .make { ID := 9, Name := "Erin", Age := 17, Email := "erin@x.com", CreatedAt := 6 },
        .add (some 4)] (by decide)).1
    [.make (david 5)]
    [.make { ID := 9, Name := "Erin", Age := 17, Email := "erin@x.com", CreatedAt := 6 },
      .add (some 4)] 3 rfl (by decide)).1

/-- C8, dense 1-based identifiers.  In every directory reached from
`NewDataService` by a sequence of calls, the entity at position `i` has `ID`
`i + 1`; the identifiers, read in order, are `1, 2, ..., n`, and no two are
equal. -/
theorem dense_identifiers (h0 : Heap) (t1 t2 t3 : Time) (cs : List Call)
    (hok : okRun (NewDataService h0 t1 t2 t3) cs = true) :
    (∀ (i q : Nat), (run (NewDataService h0 t1 t2 t3) cs).1.people[i]? = some q →
        ((run (NewDataService h0 t1 t2 t3) cs).2.cells q).ID = (i : Int) + 1) ∧
      (run (NewDataService h0 t1 t2 t3) cs).1.people.map
          (fun q => ((run (NewDataService h0 t1 t2 t3) cs).2.cells q).ID) =
        (List.range (run (NewDataService h0 t1 t2 t3) cs).1.people.length).map
          (fun i : Nat => (i : Int) + 1) ∧
      ((run (NewDataService h0 t1 t2 t3) cs).1.people.map
          (fun q => ((run (NewDataService h0 t1 t2 t3) cs).2.cells q).ID)).Nodup := by
  have hI := inv_run _ cs (inv_init h0 t1 t2 t3) hok
  have hlist : (run (NewDataService h0 t1 t2 t3) cs).1.people.map
        (fun q => ((run (NewDataService h0 t1 t2 t3) cs).2.cells q).ID) =
      (List.range (run (NewDataService h0 t1 t2 t3) cs).1.people.length).map
        (fun i : Nat => (i : Int) + 1) := by
    apply List.ext_getElem?
    intro n
    rw [List.getElem?_map, List.getElem?_map]
    by_cases hn : n < (run (NewDataService h0 t1 t2 t3) cs).1.people.length
    · rw [List.getElem?_range hn, List.getElem?_eq_getElem hn]
      simp only [Option.map_some', Option.some.injEq]
      exact hI.ids n _ (List.getElem?_eq_getElem hn)
    · have h1 : (run (NewDataService h0 t1 t2 t3) cs).1.people[n]? = none :=
        List.getElem?_eq_none (Nat.le_of_not_lt hn)
      have h2 : (List.range (run (NewDataService h0 t1 t2 t3) cs).1.people.length)[n]? = none :=
        List.getElem?_eq_none (by simpa using Nat.le_of_not_lt hn)
      rw [h1, h2]; rfl
  refine ⟨hI.ids, hlist, ?_⟩
  rw [hlist]
  exact List.Nodup.map (fun a b hab => by simpa using hab) (List.nodup_range _)

/-- C8 at a concrete run: after David is added, position 3 holds identifier 4. -/
theorem dense_identifiers_witness :
    ((run (NewDataService emptyHeap 0 0 0)
        [.make (david 5), .add (some 3), .add (some 3), .add none]).2.cells 3).ID = 4 :=
  (dense_identifiers emptyHeap 0 0 0
    [.make (david 5), .add (some 3), .add (some 3), .add none] (by decide)).1 3 3 (by decide)

/-- C9, append-only growth.  The sequence before an `AddPerson` call is a
prefix of the sequence after it; the length grows by one when the call returns
no error and by zero when it returns one; `GetAllPeople` and
`FindPersonByEmail` leave the sequence as it was. -/
theorem append_only_growth (ds : DataService) (h : Heap) (person : Option Nat)
    (email : String) :
    ds.people <+: (AddPerson ds h person).ds.people ∧
      (AddPerson ds h person).ds.people.length =
        ds.people.length + (if (AddPerson ds h person).err = none then 1 else 0) ∧
      (GetAllPeople ds).ds.people = ds.people ∧
      (FindPersonByEmail ds h email).ds.people = ds.people := by
  refine ⟨?_, ?_, rfl, find_people ds h email⟩
  · have hp := step_people (ds, h) (.add person)
    have hp2 : (AddPerson ds h person).ds.people = ds.people ++ added (ds, h) [.add person] := hp
    rw [hp2]; exact List.prefix_append _ _
  · cases person with
    | none => simp [add_nil]
    | some p =>
      cases hf : findLoop h (h.cells p).Email ds.people with
      | none =>
        obtain ⟨he, hp, -⟩ := add_fresh ds h p hf
        simp [he, hp]
      | some q => simp [add_dup ds h p q hf]

/-- C10, idempotent listing.  `GetAllPeople` returns the whole sequence of the
directory, in its order, and a second call right after the first returns the
same list. -/
theorem listing_idempotent (ds : DataService) :
    (GetAllPeople ds).ret = ds.people ∧
      (GetAllPeople (GetAllPeople ds).ds).ret = (GetAllPeople ds).ret ∧
      (GetAllPeople (GetAllPeople ds).ds).ret.length = (GetAllPeople ds).ret.length :=
  ⟨rfl, rfl, rfl⟩

/-! ## The entity -/

/-- C11, `IsAdult` is the threshold test: for every `Person`, negative ages
included, `IsAdult` is true exactly when `Age >= 18`. -/
theorem isAdult_iff (p : Person) : p.IsAdult = true ↔ p.Age ≥ 18 := by
  simp [Person.IsAdult]

theorem sprintf_display (name email status : String) (age : Int) :
    Sprintf "%s (%d) - %s [%s]" [.str name, .int age, .str email, .str status] =
      name ++ " (" ++ String.mk (fmtInt age) ++ ") - " ++ email ++ " [" ++ status ++ "]" := by
  have hs : sprintfChars "%s (%d) - %s [%s]".data
        [.str name, .int age, .str email, .str status] =
      some (name.data ++ (' ' :: '(' :: (fmtInt age ++
        (')' :: ' ' :: '-' :: ' ' :: (email.data ++ (' ' :: '[' :: (status.data ++ [']']))))))) :=
    rfl
  unfold Sprintf
  rw [hs]
  apply String.ext
  simp [String.data_append]

/-- C12, display form: for every `Person`, `String` is the concatenation of
`Name`, " (", the decimal `Age`, ") - ", `Email`, " [", the status and "]",
where the status is "adult" when `Age >= 18` and "minor" otherwise; for Alice
Johnson, 30, alice@example.com this is
"Alice Johnson (30) - alice@example.com [adult]". -/
theorem string_display_form (p : Person) :
    p.String =
        p.Name ++ " (" ++ String.mk (fmtInt p.Age) ++ ") - " ++ p.Email ++ " [" ++
          (if p.Age ≥ 18 then "adult" else "minor") ++ "]" ∧
      Person.String { ID := 1, Name := "Alice Johnson", Age := 30,
                      Email := "alice@example.com", CreatedAt := 0 } =
        "Alice Johnson (30) - alice@example.com [adult]" := by
  refine ⟨?_, by decide⟩
  have hst : (if p.IsAdult = true then "adult" else "minor") =
      (if p.Age ≥ 18 then "adult" else "minor") := by
    by_cases h : p.Age ≥ 18
    · rw [if_pos h, if_pos ((isAdult_iff p).2 h)]
    · rw [if_neg h, if_neg (fun hb => h ((isAdult_iff p).1 hb))]
  show Sprintf "%s (%d) - %s [%s]"
      [.str p.Name, .int p.Age, .str p.Email,
        .str (if p.IsAdult = true then "adult" else "minor")] = _
  rw [sprintf_display, hst]

/-! ## Log events of the directory -/

/-- C14, log events of lookup.  `FindPersonByEmail` appends exactly two
entries to the log: first an informational one carrying the searched email,
then either an informational one naming the matched entity (when the result is
that entity) or a warning (when the result is nil); the second entry is a
warning exactly when the result is nil. -/
theorem find_log_events (ds : DataService) (h : Heap) (email : String) :
    ∃ second : LogEntry,
      (FindPersonByEmail ds h email).ds.logger =
          ds.logger ++
            [{ level := .info, msg := "Searching for person", fields := [("email", email)] },
              second] ∧
        (∀ p : Nat, (FindPersonByEmail ds h email).ret = some p →
          second = { level := .info, msg := "Person found",
                     fields := [("person", (h.cells p).Name)] }) ∧
        ((FindPersonByEmail ds h email).ret = none →
          second = { level := .warn, msg := "Person not found", fields := [] }) ∧
        (second.level = .warn ↔ (FindPersonByEmail ds h email).ret = none) := by
  unfold FindPersonByEmail
  cases findLoop h email ds.people with
  | none =>
    exact ⟨{ level := .warn, msg := "Person not found", fields := [] },
      by simp [DataService.emit], by simp, by simp, by simp⟩
  | some q =>
    exact ⟨{ level := .info, msg := "Person found", fields := [("person", (h.cells q).Name)] },
      by simp [DataService.emit], by simp, by simp, by simp⟩

/-- C13 as stated fails: `AddPerson(nil)` on the seeded directory emits no log
entry at all, so not "at least one". -/
theorem add_nil_emits_nothing :
    ¬ ∃ evs : List LogEntry, 1 ≤ evs.length ∧ evs.length ≤ 3 ∧
      (AddPerson (NewDataService emptyHeap 0 0 0).1 (NewDataService emptyHeap 0 0 0).2
          none).ds.logger =
        (NewDataService emptyHeap 0 0 0).1.logger ++ evs := by
  rintro ⟨evs, h1, -, h⟩
  have hnil : evs = [] := by
    have : ([] : List LogEntry) = [] ++ evs := h
    simpa using this.symm
  rw [hnil] at h1
  exact absurd h1 (by decide)

/-- C13, amended.  A call of `AddPerson` with a non-nil argument emits two log
entries when the email is already present and three when it is fresh (so at
least one and at most three); the first two are those of the nested
`FindPersonByEmail` call and the third comes after it.  A call with nil emits
none. -/
theorem add_log_events (ds : DataService) (h : Heap) (person : Option Nat) :
    ∃ evs : List LogEntry,
      (AddPerson ds h person).ds.logger = ds.logger ++ evs ∧
        evs.length =
          (match person with
            | none => 0
            | some _ => if (AddPerson ds h person).err = none then 3 else 2) ∧
        (∀ p : Nat, person = some p →
          1 ≤ evs.length ∧ evs.length ≤ 3 ∧
          ∃ tail : List LogEntry,
            (AddPerson ds h person).ds.logger =
              (FindPersonByEmail ds h (h.cells p).Email).ds.logger ++ tail ∧
            tail.length ≤ 1) := by
  cases person with
  | none => exact ⟨[], by simp [add_nil], rfl, fun p hp => by cases hp⟩
  | some p =>
    obtain ⟨second, hlog, -, -, -⟩ := find_log_events ds h (h.cells p).Email
    cases hf : findLoop h (h.cells p).Email ds.people with
    | some q =>
      have hd := add_dup ds h p q hf
      refine ⟨_, by rw [hd]; exact hlog, by simp [hd], ?_⟩
      intro p1 hp1
      cases hp1
      exact ⟨by simp, by simp, [], by rw [hd]; simp, by simp⟩
    | none =>
      have he := (add_fresh ds h p hf).1
      have hr := find_ret ds h (h.cells p).Email
      rw [hf] at hr
      have hl : (AddPerson ds h (some p)).ds.logger =
          (FindPersonByEmail ds h (h.cells p).Email).ds.logger ++
            [{ level := .info, msg := "Person added successfully",
               fields := [("person", ((h.setID p ((ds.people.length : Int) + 1)).cells p).Name)] }] := by
        simp only [AddPerson, hr, DataService.emit, find_people]
      refine ⟨_, by rw [hl, hlog, List.append_assoc], by simp [he], ?_⟩
      intro p1 hp1
      cases hp1
      exact ⟨by simp, by simp, _, hl, by simp⟩

/-! ## Frame of `AddPerson` -/

/-- C20, frame of a successful `AddPerson`.  When the `Email` of `p` is fresh,
the object `p` points to keeps its `Name`, `Age`, `Email` and `CreatedAt`
across the call (only `ID` is written), and every object other than `p`, in
particular every entity already in the directory, is unchanged in all its
fields. -/
theorem add_frame (ds : DataService) (h : Heap) (p : Nat)
    (hfresh : ∀ q ∈ ds.people, (h.cells q).Email ≠ (h.cells p).Email) :
    ((AddPerson ds h (some p)).heap.cells p).Name = (h.cells p).Name ∧
      ((AddPerson ds h (some p)).heap.cells p).Age = (h.cells p).Age ∧
      ((AddPerson ds h (some p)).heap.cells p).Email = (h.cells p).Email ∧
      ((AddPerson ds h (some p)).heap.cells p).CreatedAt = (h.cells p).CreatedAt ∧
      (∀ q : Nat, q ≠ p → (AddPerson ds h (some p)).heap.cells q = h.cells q) ∧
      (∀ q ∈ ds.people, (AddPerson ds h (some p)).heap.cells q = h.cells q) := by
  obtain ⟨-, -, hh⟩ := add_fresh ds h p ((findLoop_eq_none_iff _ _ _).2 hfresh)
  rw [hh, setID_cells_self]
  refine ⟨rfl, rfl, rfl, rfl, fun q hq => setID_cells_of_ne _ _ _ _ hq, fun q hq => ?_⟩
  exact setID_cells_of_ne _ _ _ _ (fun e => hfresh q hq (by rw [e]))

/-- C20 at a concrete input: adding David leaves Alice's object as it was. -/
theorem add_frame_witness :
    (AddPerson (NewDataService emptyHeap 0 0 0).1
        ((NewDataService emptyHeap 0 0 0).2.alloc (david 5)).2 (some 3)).heap.cells 0 =
      ((NewDataService emptyHeap 0 0 0).2.alloc (david 5)).2.cells 0 :=
  (add_frame (NewDataService emptyHeap 0 0 0).1
    ((NewDataService emptyHeap 0 0 0).2.alloc (david 5)).2 3 (by decide)).2.2.2.2.2 0
    (by decide)

/-! ## The calculator -/

theorem wrap64_add_wrap64 (a b : Int) : wrap64 (wrap64 a + b) = wrap64 (a + b) := by
  unfold wrap64
  omega

theorem sumLoop_wrap64 (l : List Int) (s : Int) :
    sumLoop (wrap64 s) l = wrap64 (s + l.sum) := by
  induction l generalizing s with
  | nil => simp [sumLoop]
  | cons x l ih =>
    simp only [sumLoop, List.sum_cons]
    rw [wrap64_add_wrap64, ih, add_assoc]

theorem sumLoop_zero (l : List Int) : sumLoop 0 l = wrap64 l.sum := by
  have h0 : wrap64 0 = 0 := by decide
  have := sumLoop_wrap64 l 0
  rw [h0, zero_add] at this
  exact this

/-- C17, `Divide` fails exactly on a zero divisor: for all integers `a` and
`b` it panics, with "division by zero", if and only if `b = 0`, and for every
other `b` it returns the quotient of the two conversions. -/
theorem divide_panics_iff {F : Type} (fl : FloatOps F) (a b : Int) :
    (Calculator.Divide fl a b = .error "division by zero" ↔ b = 0) ∧
      ((∃ v, Calculator.Divide fl a b = .error v) ↔ b = 0) ∧
      (b ≠ 0 → Calculator.Divide fl a b = .ok (fl.div (fl.ofInt a) (fl.ofInt b))) := by
  by_cases hb : b = 0
  · simp [Calculator.Divide, hb]
  · simp [Calculator.Divide, hb]

/-- C18, `CalculateAverage` fails exactly on an empty input: it panics, with
"cannot calculate average of empty slice", if and only if the slice has length
0; on a non-empty slice it returns the quotient of the conversion of the sum,
a 64-bit sum that wraps around, by the conversion of the length, which is not
zero. -/
theorem average_panics_iff {F : Type} (fl : FloatOps F) (numbers : List Int) :
    (Calculator.CalculateAverage fl numbers =
        .error "cannot calculate average of empty slice" ↔ numbers.length = 0) ∧
      ((∃ v, Calculator.CalculateAverage fl numbers = .error v) ↔ numbers.length = 0) ∧
      (numbers.length ≠ 0 →
        Calculator.CalculateAverage fl numbers =
            .ok (fl.div (fl.ofInt (sumLoop 0 numbers)) (fl.ofInt numbers.length)) ∧
          sumLoop 0 numbers = wrap64 numbers.sum ∧
          (numbers.length : Int) ≠ 0) := by
  by_cases hn : numbers.length = 0
  · simp [Calculator.CalculateAverage, hn]
  · simp [Calculator.CalculateAverage, hn, sumLoop_zero]

/-! ## The driver -/

/-- C19, panic recovery.  For every library and every state,
`demonstrateErrorHandling` returns normally.  On the way `Divide(10, 2)`
returns a value, `AddPerson(nil)` returns an error and leaves directory and
store as they were, `Divide(10, 0)` panics, so the body is left by the panic
"division by zero"; the deferred handler recovers it, and the output of the
call is the header, the "10 / 2" line, the nil error line and the recovery
line: no "10 / 0" line is printed. -/
theorem demonstrate_recovers {F D : Type} (lib : Lib F D) (w : World F D) :
    demonstrateErrorHandling lib w =
        (.ok (),
          { w with out := w.out ++
              [.println [.str "\n--- Testing Error Handling ---"],
                .printf "10 / 2 = %.2f\n" [.float (lib.fl.div (lib.fl.ofInt 10) (lib.fl.ofInt 2))],
                .printf "Error adding nil person: %v\n" [.str "person cannot be nil"],
                .printf "Recovered from panic: %v\n" [.str "division by zero"]] }) ∧
      Calculator.Divide lib.fl 10 2 =
        .ok (lib.fl.div (lib.fl.ofInt 10) (lib.fl.ofInt 2)) ∧
      (AddPerson w.ds w.heap none).err = some "person cannot be nil" ∧
      (AddPerson w.ds w.heap none).ds = w.ds ∧
      (AddPerson w.ds w.heap none).heap = w.heap ∧
      Calculator.Divide lib.fl 10 0 = .error "division by zero" ∧
      (demoBody lib w).1 = .error "division by zero" ∧
      (demonstrateErrorHandling lib w).2.ds = w.ds ∧
      (demonstrateErrorHandling lib w).2.heap = w.heap ∧
      ∀ args : List (Val F),
        Out.printf "10 / 0 = %.2f\n" args ∉
          (demonstrateErrorHandling lib w).2.out.drop w.out.length := by
  have hmain : demonstrateErrorHandling lib w =
        (.ok (),
          { w with out := w.out ++
              [.println [.str "\n--- Testing Error Handling ---"],
                .printf "10 / 2 = %.2f\n" [.float (lib.fl.div (lib.fl.ofInt 10) (lib.fl.ofInt 2))],
                .printf "Error adding nil person: %v\n" [.str "person cannot be nil"],
                .printf "Recovered from panic: %v\n" [.str "division by zero"]] }) := by
    simp [demonstrateErrorHandling, demoBody, deferRecover, bind, Go.bind, println, printf, call,
      addPerson, Calculator.Divide, add_nil, pure, Go.pure]
  refine ⟨hmain, rfl, rfl, rfl, rfl, rfl, rfl, ?_, ?_, ?_⟩
  · rw [hmain]
  · rw [hmain]
  · intro args
    rw [hmain]
    simp

theorem setup_add (h : Heap) (t1 t2 t3 t4 : Time) :
    (AddPerson (GetAllPeople (NewDataService h t1 t2 t3).1).ds
        (NewPerson (NewDataService h t1 t2 t3).2 t4 0 "David Wilson" 28
          "david@newdomain.com").2
        (some (NewPerson (NewDataService h t1 t2 t3).2 t4 0 "David Wilson" 28
          "david@newdomain.com").1)).err = none := by
  rw [add_err_none_iff, findLoop_eq_none_iff]
  have h1 : h.next ≠ h.next + 1 + 1 := by omega
  have h2 : h.next ≠ h.next + 1 + 1 + 1 := by omega
  have h3 : h.next + 1 ≠ h.next + 1 + 1 + 1 := by omega
  simp [GetAllPeople, NewDataService, NewPerson, Heap.alloc, Function.update, h1, h2, h3]

theorem setup_add_state (h : Heap) (t1 t2 t3 t4 : Time) :
    (AddPerson (GetAllPeople (NewDataService h t1 t2 t3).1).ds
        (NewPerson (NewDataService h t1 t2 t3).2 t4 0 "David Wilson" 28
          "david@newdomain.com").2
        (some (NewPerson (NewDataService h t1 t2 t3).2 t4 0 "David Wilson" 28
          "david@newdomain.com").1)).ds.people =
        [h.next, h.next + 1, h.next + 2, h.next + 3] ∧
      [h.next, h.next + 1, h.next + 2, h.next + 3].map
          (AddPerson (GetAllPeople (NewDataService h t1 t2 t3).1).ds
            (NewPerson (NewDataService h t1 t2 t3).2 t4 0 "David Wilson" 28
              "david@newdomain.com").2
            (some (NewPerson (NewDataService h t1 t2 t3).2 t4 0 "David Wilson" 28
              "david@newdomain.com").1)).heap.cells =
        [{ ID := 1, Name := "Alice Johnson", Age := 30, Email := "alice@example.com",
           CreatedAt := t1 },
         { ID := 2, Name := "Bob Smith", Age := 25, Email := "bob@test.org", CreatedAt := t2 },
         { ID := 3, Name := "Carol Davis", Age := 35, Email := "carol@company.com",
           CreatedAt := t3 },
         { ID := 4, Name := "David Wilson", Age := 28, Email := "david@newdomain.com",
           CreatedAt := t4 }] := by
  have hf := (add_err_none_iff _ _ _).1 (setup_add h t1 t2 t3 t4)
  obtain ⟨-, hp, hh⟩ := add_fresh _ _ _ hf
  rw [hp, hh]
  have h1 : h.next ≠ h.next + 1 + 1 := by omega
  have h2 : h.next ≠ h.next + 1 + 1 + 1 := by omega
  have h3 : h.next + 1 ≠ h.next + 1 + 1 + 1 := by omega
  simp [GetAllPeople, NewDataService, NewPerson, Heap.alloc, Heap.setID, Function.update,
    h1, h2, h3, h1.symm, h2.symm, h3.symm]

theorem mainSetup_eq {F D : Type} (lib : Lib F D) (t1 t2 t3 t4 : Time) (w : World F D) :
    ∃ outs : List (Out F),
      mainSetup lib t1 t2 t3 t4 w =
        (.ok { people := [w.heap.next, w.heap.next + 1, w.heap.next + 2],
               newPerson := w.heap.next + 3 },
          { ds := (AddPerson (GetAllPeople (NewDataService w.heap t1 t2 t3).1).ds
              (NewPerson (NewDataService w.heap t1 t2 t3).2 t4 0 "David Wilson" 28
                "david@newdomain.com").2
              (some (NewPerson (NewDataService w.heap t1 t2 t3).2 t4 0 "David Wilson" 28
                "david@newdomain.com").1)).ds
            heap := (AddPerson (GetAllPeople (NewDataService w.heap t1 t2 t3).1).ds
              (NewPerson (NewDataService w.heap t1 t2 t3).2 t4 0 "David Wilson" 28
                "david@newdomain.com").2
              (some (NewPerson (NewDataService w.heap t1 t2 t3).2 t4 0 "David Wilson" 28
                "david@newdomain.com").1)).heap
            out := w.out ++ outs
            log := w.log
            files := w.files }) := by
  have ha := setup_add w.heap t1 t2 t3 t4
  have h1 : w.heap.next ≠ w.heap.next + 1 + 1 := by omega
  have h2 : w.heap.next ≠ w.heap.next + 1 + 1 + 1 := by omega
  have h3 : w.heap.next + 1 ≠ w.heap.next + 1 + 1 + 1 := by omega
  refine ⟨[.println [.str "Go Neovim Test Application"],
    .println [.str ("=" ++ Sprintf "%*s" [.int 39, .str "="])],
    .printf "5 + 3 = %d\n" [.int (Calculator.Add 5 3)],
    .printf "15 / 3 = %.2f\n" [.float (lib.fl.div (lib.fl.ofInt 15) (lib.fl.ofInt 3))],
    .printf "Average of %v = %.2f\n"
      [.ints [1, 2, 3, 4, 5],
        .float (lib.fl.div (lib.fl.ofInt (sumLoop 0 [1, 2, 3, 4, 5])) (lib.fl.ofInt 5))],
    .printf "\nFound %d people:\n" [.int 3],
    .printf "%d: %s\n" [.int 1, .str (Person.String
      { ID := 1, Name := "Alice Johnson", Age := 30, Email := "alice@example.com",
        CreatedAt := t1 })],
    .printf "%d: %s\n" [.int 2, .str (Person.String
      { ID := 2, Name := "Bob Smith", Age := 25, Email := "bob@test.org", CreatedAt := t2 })],
    .printf "%d: %s\n" [.int 3, .str (Person.String
      { ID := 3, Name := "Carol Davis", Age := 35, Email := "carol@company.com",
        CreatedAt := t3 })],
    .printf "Successfully added: %s\n" [.str "David Wilson"]], ?_⟩
  simp [mainSetup, bind, Go.bind, println, printf, call, addPerson, Calculator.Divide,
    Calculator.CalculateAverage, pure, Go.pure, newDataService, getAllPeople, newPerson, deref,
    printPeople, ha]
  have hh := (add_fresh _ _ _ ((add_err_none_iff _ _ _).1 ha)).2.2
  rw [hh]
  simp [GetAllPeople, NewDataService, NewPerson, Heap.alloc, Heap.setID, Function.update,
    h1, h2, h3, h1.symm, h2.symm, h3.symm]

/-- C16 on the code: in `main`, run on the empty store with the clock
readings 1, 2, 3, 4, the slice handed to `savePeopleToFile` holds three
pointers while the directory holds four at that moment, so the snapshot is not
the directory's current collection. -/
theorem main_saves_listing_not_directory :
    ∃ (l : MainLocals) (w1 : World Int (List Person)),
      mainSetup testLib 1 2 3 4 emptyWorld = (.ok l, w1) ∧
        l.people = [0, 1, 2] ∧ w1.ds.people = [0, 1, 2, 3] ∧ l.people ≠ w1.ds.people := by
  obtain ⟨outs, h⟩ := mainSetup_eq testLib 1 2 3 4 emptyWorld
  refine ⟨_, _, h, rfl, ?_, ?_⟩
  · exact (setup_add_state emptyHeap 1 2 3 4).1
  · intro he
    have h4 : ([0, 1, 2] : List Nat) = [0, 1, 2, 3] :=
      he.trans (setup_add_state emptyHeap 1 2 3 4).1
    exact absurd h4 (by decide)

/-- What `main` saves, in general: for every library, clock and initial state,
the statements before the call of `savePeopleToFile` do not panic; the slice
handed to `savePeopleToFile` is the one `GetAllPeople` returned before the
add, that is the pointers to the three seeds, while the directory at that
moment holds four entities, Alice, Bob, Carol and David with identifiers 1 to
4.  The rest of `main` runs `savePeopleToFile` on that slice, so that, when
the file is created and the encoder succeeds, the document written encodes
Alice, Bob and Carol only. -/
theorem main_snapshot_is_listing {F D : Type} (lib : Lib F D) (t1 t2 t3 t4 : Time)
    (w : World F D) :
    ∃ w1 : World F D,
      mainSetup lib t1 t2 t3 t4 w =
          (.ok { people := [w.heap.next, w.heap.next + 1, w.heap.next + 2],
                 newPerson := w.heap.next + 3 }, w1) ∧
        w1.ds.people = [w.heap.next, w.heap.next + 1, w.heap.next + 2, w.heap.next + 3] ∧
        [w.heap.next, w.heap.next + 1, w.heap.next + 2, w.heap.next + 3].map w1.heap.cells =
          [{ ID := 1, Name := "Alice Johnson", Age := 30, Email := "alice@example.com",
             CreatedAt := t1 },
           { ID := 2, Name := "Bob Smith", Age := 25, Email := "bob@test.org", CreatedAt := t2 },
           { ID := 3, Name := "Carol Davis", Age := 35, Email := "carol@company.com",
             CreatedAt := t3 },
           { ID := 4, Name := "David Wilson", Age := 28, Email := "david@newdomain.com",
             CreatedAt := t4 }] ∧
        main lib t1 t2 t3 t4 w =
          (do
            let err ← savePeopleToFile lib
              [w.heap.next, w.heap.next + 1, w.heap.next + 2] "people.json"
            match err with
            | some e => printf "Error saving to file: %v\n" [.str e]
            | none => pure ()
            demonstrateErrorHandling lib
            println [.str "\nTest completed successfully!"]) w1 ∧
        (lib.create "people.json" = none →
          ∀ doc : D,
            lib.encode "" "  "
                [{ ID := 1, Name := "Alice Johnson", Age := 30, Email := "alice@example.com",
                   CreatedAt := t1 },
                 { ID := 2, Name := "Bob Smith", Age := 25, Email := "bob@test.org",
                   CreatedAt := t2 },
                 { ID := 3, Name := "Carol Davis", Age := 35, Email := "carol@company.com",
                   CreatedAt := t3 }] = .ok doc →
            (savePeopleToFile lib [w.heap.next, w.heap.next + 1, w.heap.next + 2]
                "people.json" w1).2.files =
              w.files ++ [.create "people.json", .write "people.json" doc,
                .close "people.json"]) := by
  obtain ⟨outs, h⟩ := mainSetup_eq lib t1 t2 t3 t4 w
  obtain ⟨hp, hc⟩ := setup_add_state w.heap t1 t2 t3 t4
  refine ⟨_, h, hp, hc, ?_, ?_⟩
  · show (mainSetup lib t1 t2 t3 t4 >>= _) w = _
    show Go.bind (mainSetup lib t1 t2 t3 t4) _ w = _
    unfold Go.bind
    rw [h]
  · intro hcreate doc hdoc
    simp only [List.map_cons, List.map_nil, List.cons.injEq, and_true] at hc
    simp only [savePeopleToFile, hcreate, List.map_cons, List.map_nil, hc.1, hc.2.1, hc.2.2.1,
      hdoc]

/-! ## The snapshot document -/

theorem hexVal_digitChar (d : Nat) (hd : d < 16) : hexVal (Nat.digitChar d) = some d := by
  interval_cases d <;> rfl

theorem parse_escapeU (n : Nat) (hn : n < 65536) (rest : List Char) :
    parseStrBody (escapeU n ++ rest) =
      match parseStrBody rest with
      | some (s, r) => some (Char.ofNat n :: s, r)
      | none => none := by
  have h1 : n / 4096 < 16 := by omega
  have h2 : n / 256 % 16 < 16 := by omega
  have h3 : n / 16 % 16 < 16 := by omega
  have h4 : n % 16 < 16 := by omega
  have hsum : ((n / 4096 * 16 + n / 256 % 16) * 16 + n / 16 % 16) * 16 + n % 16 = n := by omega
  have hb : ('\\' : Char) ≠ '"' := by decide
  simp only [escapeU, List.cons_append, List.nil_append]
  rw [parseStrBody]
  simp only [hb, if_false, if_true, hexVal_digitChar _ h1, hexVal_digitChar _ h2,
    hexVal_digitChar _ h3, hexVal_digitChar _ h4, hsum]
  cases parseStrBody rest with
  | none => rfl
  | some sr =>
    obtain ⟨s, r⟩ := sr
    simp only [hsum]

theorem toNat_lt_of_special (c : Char)
    (h : c.toNat < 32 ∨ c = '<' ∨ c = '>' ∨ c = '&' ∨ c.toNat = 8232 ∨ c.toNat = 8233) :
    c.toNat < 65536 := by
  rcases h with h | rfl | rfl | rfl | h | h
  · omega
  · decide
  · decide
  · decide
  · omega
  · omega

theorem parse_plain (c : Char) (h1 : c ≠ '"') (h2 : c ≠ '\\') (rest : List Char) :
    parseStrBody (c :: rest) =
      match parseStrBody rest with
      | some (s, r) => some (c :: s, r)
      | none => none := by
  rw [parseStrBody.eq_def]
  simp only [h1, h2, if_false]

theorem parse_quote (rest : List Char) : parseStrBody ('"' :: rest) = some ([], rest) := by
  rw [parseStrBody.eq_def]
  simp only [if_true]

theorem parse_short (e ch : Char) (he : e ≠ 'u') (hu : unescape e = some ch)
    (rest : List Char) :
    parseStrBody ('\\' :: e :: rest) =
      match parseStrBody rest with
      | some (s, r) => some (ch :: s, r)
      | none => none := by
  have hb : ('\\' : Char) ≠ '"' := by decide
  rw [parseStrBody.eq_def]
  simp only [hb, he, hu, if_false, if_true]
  cases parseStrBody rest with
  | none => rfl
  | some sr => rfl

theorem parse_escapeChar (c : Char) (rest : List Char) :
    parseStrBody (escapeChar c ++ rest) =
      match parseStrBody rest with
      | some (s, r) => some (c :: s, r)
      | none => none := by
  unfold escapeChar
  split_ifs with h1 h2 h3 h4 h5 h6
  · subst h1
    exact parse_short _ _ (by decide) (by decide) rest
  · subst h2
    exact parse_short _ _ (by decide) (by decide) rest
  · subst h3
    exact parse_short _ _ (by decide) (by decide) rest
  · subst h4
    exact parse_short _ _ (by decide) (by decide) rest
  · subst h5
    exact parse_short _ _ (by decide) (by decide) rest
  · rw [parse_escapeU _ (toNat_lt_of_special c h6), Char.ofNat_toNat]
  · exact parse_plain c h1 h2 rest

theorem parse_string_body (s : List Char) (rest : List Char) :
    parseStrBody (s.flatMap escapeChar ++ '"' :: rest) = some (s, rest) := by
  induction s with
  | nil => exact parse_quote rest
  | cons c s ih =>
    rw [List.flatMap_cons, List.append_assoc, parse_escapeChar, ih]

theorem digitChar_isDigit (m : Nat) (hm : m < 10) :
    (Nat.digitChar m).isDigit = true ∧ (Nat.digitChar m).toNat - 48 = m := by
  interval_cases m <;> exact ⟨rfl, rfl⟩

theorem foldl_digits (ds : List Char) (a : Nat) :
    ds.foldl (fun a d => 10 * a + (d.toNat - 48)) a = a * 10 ^ ds.length + digitsVal ds := by
  induction ds generalizing a with
  | nil => simp [digitsVal]
  | cons d ds ih =>
    simp only [digitsVal, List.foldl_cons, List.length_cons]
    rw [ih, ih (10 * 0 + (d.toNat - 48))]
    ring

theorem digitsVal_cons (d : Char) (ds : List Char) :
    digitsVal (d :: ds) = (d.toNat - 48) * 10 ^ ds.length + digitsVal ds := by
  simp only [digitsVal, List.foldl_cons]
  rw [foldl_digits]
  simp [digitsVal]

theorem toDigitsCore_spec (fuel n : Nat) (acc : List Char) (hn : n < fuel)
    (hacc : ∀ c ∈ acc, c.isDigit = true) :
    (∀ c ∈ Nat.toDigitsCore 10 fuel n acc, c.isDigit = true) ∧
      digitsVal (Nat.toDigitsCore 10 fuel n acc) = n * 10 ^ acc.length + digitsVal acc ∧
      Nat.toDigitsCore 10 fuel n acc ≠ [] := by
  induction fuel generalizing n acc with
  | zero => omega
  | succ f ih =>
    have hd := digitChar_isDigit (n % 10) (Nat.mod_lt _ (by decide))
    have hacc2 : ∀ c ∈ Nat.digitChar (n % 10) :: acc, c.isDigit = true := by
      intro c hc
      rcases List.mem_cons.1 hc with rfl | hc
      · exact hd.1
      · exact hacc c hc
    unfold Nat.toDigitsCore
    by_cases h0 : n / 10 = 0
    · simp only [h0, if_true]
      refine ⟨hacc2, ?_, by simp⟩
      rw [digitsVal_cons, hd.2]
      have : n % 10 = n := by omega
      rw [this]
    · simp only [h0, if_false]
      obtain ⟨h1, h2, h3⟩ := ih (n / 10) (Nat.digitChar (n % 10) :: acc) (by omega) hacc2
      refine ⟨h1, ?_, h3⟩
      rw [h2, digitsVal_cons, hd.2, List.length_cons, pow_succ]
      have hdm := Nat.div_add_mod n 10
      calc n / 10 * (10 ^ acc.length * 10) + (n % 10 * 10 ^ acc.length + digitsVal acc)
          = (10 * (n / 10) + n % 10) * 10 ^ acc.length + digitsVal acc := by ring
        _ = n * 10 ^ acc.length + digitsVal acc := by rw [hdm]

theorem toDigits_spec (n : Nat) :
    (∀ c ∈ Nat.toDigits 10 n, c.isDigit = true) ∧ digitsVal (Nat.toDigits 10 n) = n ∧
      Nat.toDigits 10 n ≠ [] := by
  obtain ⟨h1, h2, h3⟩ := toDigitsCore_spec (n + 1) n [] (by omega) (by simp)
  refine ⟨h1, ?_, h3⟩
  rw [Nat.toDigits, h2]
  simp [digitsVal]

theorem takeWhile_digits (ds : List Char) (c : Char) (r : List Char)
    (hds : ∀ d ∈ ds, d.isDigit = true) (hc : c.isDigit = false) :
    (ds ++ c :: r).takeWhile Char.isDigit = ds ∧
      (ds ++ c :: r).dropWhile Char.isDigit = c :: r := by
  induction ds with
  | nil => simp [List.takeWhile, List.dropWhile, hc]
  | cons d ds ih =>
    have hd := hds d (List.mem_cons_self _ _)
    obtain ⟨h1, h2⟩ := ih (fun x hx => hds x (List.mem_cons_of_mem _ hx))
    simp [List.takeWhile, List.dropWhile, hd, h1, h2]

theorem parseNat_digits (n : Nat) (c : Char) (r : List Char) (hc : c.isDigit = false) :
    parseNat (Nat.toDigits 10 n ++ c :: r) = some (n, c :: r) := by
  obtain ⟨h1, h2, h3⟩ := toDigits_spec n
  obtain ⟨ht, hdr⟩ := takeWhile_digits _ c r h1 hc
  simp only [parseNat, ht, hdr, h3, if_false, h2]

theorem fmtInt_eq (n : Int) :
    fmtInt n = if n < 0 then '-' :: Nat.toDigits 10 n.natAbs else Nat.toDigits 10 n.natAbs :=
  rfl

theorem parseInt_fmtInt (n : Int) (c : Char) (r : List Char) (hc : c.isDigit = false) :
    parseInt (fmtInt n ++ c :: r) = some (n, c :: r) := by
  rw [fmtInt_eq]
  by_cases hn : n < 0
  · simp only [hn, if_true, List.cons_append, parseInt, parseNat_digits _ c r hc]
    congr 2
    omega
  · simp only [hn, if_false]
    obtain ⟨h1, -, h3⟩ := toDigits_spec n.natAbs
    obtain ⟨d, ds, hds⟩ := List.exists_cons_of_ne_nil h3
    have hp := parseNat_digits n.natAbs c r hc
    rw [hds] at hp h1
    have hd : d ≠ '-' := by
      intro e
      have := h1 d (List.mem_cons_self _ _)
      rw [e] at this
      exact absurd this (by decide)
    rw [hds, List.cons_append]
    rw [List.cons_append] at hp
    simp only [parseInt, hd, if_false, hp]
    congr 2
    omega

theorem newline_two (d : Nat) :
    newline "" "  " d = '\n' :: (List.replicate d [' ', ' ']).flatten := rfl

theorem skipWs_newline (d : Nat) (c : Char) (l : List Char) (hc : isWs c = false) :
    skipWs (newline "" "  " d ++ c :: l) = c :: l := by
  rw [newline_two]
  have hrep : ∀ k : Nat, skipWs ((List.replicate k [' ', ' ']).flatten ++ c :: l) = c :: l := by
    intro k
    induction k with
    | zero => simp [skipWs, hc]
    | succ k ih =>
      have hs : isWs ' ' = true := by decide
      simp only [List.replicate_succ, List.flatten_cons, List.cons_append, List.nil_append,
        skipWs, hs, if_true]
      exact ih
  have hn : isWs '\n' = true := by decide
  simp only [List.cons_append, skipWs, hn, if_true]
  exact hrep d

theorem skipWs_of_not_ws (c : Char) (l : List Char) (hc : isWs c = false) :
    skipWs (c :: l) = c :: l := by
  simp [skipWs, hc]

theorem skipWs_space (l : List Char) : skipWs (' ' :: l) = skipWs l := by
  have hs : isWs ' ' = true := by decide
  simp [skipWs, hs]

theorem jsonString_append (s : String) (rest : List Char) :
    jsonString s ++ rest = '"' :: (s.data.flatMap escapeChar ++ '"' :: rest) := by
  simp [jsonString]

theorem fmtInt_head (n : Int) :
    ∃ d ds, fmtInt n = d :: ds ∧ d ≠ '"' ∧ isWs d = false := by
  rw [fmtInt_eq]
  by_cases hn : n < 0
  · exact ⟨'-', Nat.toDigits 10 n.natAbs, by simp [hn], by decide, by decide⟩
  · obtain ⟨h1, -, h3⟩ := toDigits_spec n.natAbs
    obtain ⟨d, ds, hds⟩ := List.exists_cons_of_ne_nil h3
    have hd : d.isDigit = true := h1 d (by rw [hds]; exact List.mem_cons_self _ _)
    refine ⟨d, ds, by simp [hn, hds], ?_, ?_⟩
    · intro e
      rw [e] at hd
      exact absurd hd (by decide)
    · simp only [Char.isDigit, Bool.and_eq_true, decide_eq_true_eq] at hd
      have h48 : (48 : Nat) ≤ d.val.toNat := by
        have := hd.1
        exact this
      simp only [isWs, Bool.or_eq_false_iff, decide_eq_false_iff_not]
      refine ⟨⟨⟨?_, ?_⟩, ?_⟩, ?_⟩ <;> (intro e; rw [e] at h48; exact absurd h48 (by decide))

theorem parseValue_string (s : String) (rest : List Char) :
    parseValue (jsonString s ++ rest) = some (.str s, rest) := by
  rw [jsonString_append]
  simp only [parseValue, if_true, parse_string_body]

theorem parseValue_int (n : Int) (c : Char) (r : List Char) (hc : c.isDigit = false) :
    parseValue (fmtInt n ++ c :: r) = some (.int n, c :: r) := by
  have hp := parseInt_fmtInt n c r hc
  obtain ⟨d, ds, hds, hq, -⟩ := fmtInt_head n
  rw [hds, List.cons_append] at hp ⊢
  simp only [parseValue, hq, if_false, hp]

theorem parseMember_string (k s : String) (rest : List Char) :
    parseMember (jsonString k ++ (':' :: ' ' :: (jsonString s ++ rest))) =
      some ((k, .str s), rest) := by
  have hq : isWs '"' = false := by decide
  have hcol : isWs ':' = false := by decide
  rw [jsonString_append k]
  simp only [parseMember, if_true, parse_string_body, skipWs_of_not_ws _ _ hcol, skipWs_space]
  rw [jsonString_append s, skipWs_of_not_ws _ _ hq, ← jsonString_append s, parseValue_string]

theorem parseMember_int (k : String) (n : Int) (c : Char) (r : List Char)
    (hc : c.isDigit = false) :
    parseMember (jsonString k ++ (':' :: ' ' :: (fmtInt n ++ c :: r))) =
      some ((k, .int n), c :: r) := by
  have hcol : isWs ':' = false := by decide
  obtain ⟨d, ds, hds, -, hw⟩ := fmtInt_head n
  have hskip : skipWs (fmtInt n ++ c :: r) = fmtInt n ++ c :: r := by
    rw [hds, List.cons_append]
    exact skipWs_of_not_ws _ _ hw
  rw [jsonString_append k]
  simp only [parseMember, if_true, parse_string_body, skipWs_of_not_ws _ _ hcol, skipWs_space,
    hskip, parseValue_int n c r hc]

theorem parseMembers_string (f : Nat) (k s : String) (X rest : List Char)
    (ms : List (String × JVal)) (h : parseMembers f X = some (ms, rest)) :
    parseMembers (f + 1)
        (',' :: (newline "" "  " 2 ++ (jsonString k ++ (':' :: (' ' :: (jsonString s ++ X)))))) =
      some ((k, .str s) :: ms, rest) := by
  have hcomma : isWs ',' = false := by decide
  have hq : isWs '"' = false := by decide
  have h1 : (',' : Char) ≠ '}' := by decide
  have hps := parseMember_string k s X
  rw [jsonString_append k] at hps ⊢
  rw [parseMembers, skipWs_of_not_ws _ _ hcomma]
  simp only [h1, if_false, if_true, skipWs_newline 2 _ _ hq, hps, h]

theorem parseMembers_int (f : Nat) (k : String) (n : Int) (c : Char) (r rest : List Char)
    (hc : c.isDigit = false) (ms : List (String × JVal))
    (h : parseMembers f (c :: r) = some (ms, rest)) :
    parseMembers (f + 1)
        (',' :: (newline "" "  " 2 ++ (jsonString k ++ (':' :: (' ' :: (fmtInt n ++ (c :: r))))))) =
      some ((k, .int n) :: ms, rest) := by
  have hcomma : isWs ',' = false := by decide
  have hq : isWs '"' = false := by decide
  have h1 : (',' : Char) ≠ '}' := by decide
  have hps := parseMember_int k n c r hc
  rw [jsonString_append k] at hps ⊢
  rw [parseMembers, skipWs_of_not_ws _ _ hcomma]
  simp only [h1, if_false, if_true, skipWs_newline 2 _ _ hq, hps, h]

theorem parseMembers_close (f : Nat) (rest : List Char) :
    parseMembers (f + 1) (newline "" "  " 1 ++ '}' :: rest) = some ([], rest) := by
  have hb : isWs '}' = false := by decide
  rw [parseMembers, skipWs_newline 1 _ _ hb]
  simp only [if_true]

theorem jsonPerson_shape (fmtTime : Time → String) (p : Person) (rest : List Char) :
    jsonPerson fmtTime "" "  " p ++ rest =
      ('{' :: (newline "" "  " 2 ++ (jsonString "id" ++ (':' :: (' ' :: (fmtInt p.ID ++ (',' :: (newline "" "  " 2 ++ (jsonString "name" ++ (':' :: (' ' :: (jsonString p.Name ++ (',' :: (newline "" "  " 2 ++ (jsonString "age" ++ (':' :: (' ' :: (fmtInt p.Age ++ (',' :: (newline "" "  " 2 ++ (jsonString "email" ++ (':' :: (' ' :: (jsonString p.Email ++ (',' :: (newline "" "  " 2 ++ (jsonString "created_at" ++ (':' :: (' ' :: (jsonString (fmtTime p.CreatedAt) ++ (newline "" "  " 1 ++ '}' :: rest))))))))))))))))))))))))))))))) := by
  simp only [jsonPerson, List.cons_append, List.append_assoc, List.nil_append]

theorem parseMembers_person (fmtTime : Time → String) (p : Person) (rest : List Char)
    (f : Nat) :
    parseMembers (f + 5)
        (',' :: (newline "" "  " 2 ++ (jsonString "name" ++ (':' :: (' ' :: (jsonString p.Name ++ (',' :: (newline "" "  " 2 ++ (jsonString "age" ++ (':' :: (' ' :: (fmtInt p.Age ++ (',' :: (newline "" "  " 2 ++ (jsonString "email" ++ (':' :: (' ' :: (jsonString p.Email ++ (',' :: (newline "" "  " 2 ++ (jsonString "created_at" ++ (':' :: (' ' :: (jsonString (fmtTime p.CreatedAt) ++ (newline "" "  " 1 ++ '}' :: rest))))))))))))))))))))))))) =
      some ([("name", JVal.str p.Name), ("age", JVal.int p.Age), ("email", JVal.str p.Email),
        ("created_at", JVal.str (fmtTime p.CreatedAt))], rest) := by
  have hcd : (',' : Char).isDigit = false := by decide
  exact parseMembers_string (f + 4) _ _ _ _ _
    (parseMembers_int (f + 3) _ _ _ _ _ hcd _
      (parseMembers_string (f + 2) _ _ _ _ _
        (parseMembers_string (f + 1) _ _ _ _ _ (parseMembers_close f rest))))

theorem tail_length (fmtTime : Time → String) (p : Person) (rest : List Char) :
    ∃ f : Nat, ((',' :: (newline "" "  " 2 ++ (jsonString "name" ++ (':' :: (' ' :: (jsonString p.Name ++ (',' :: (newline "" "  " 2 ++ (jsonString "age" ++ (':' :: (' ' :: (fmtInt p.Age ++ (',' :: (newline "" "  " 2 ++ (jsonString "email" ++ (':' :: (' ' :: (jsonString p.Email ++ (',' :: (newline "" "  " 2 ++ (jsonString "created_at" ++ (':' :: (' ' :: (jsonString (fmtTime p.CreatedAt) ++ (newline "" "  " 1 ++ '}' :: rest))))))))))))))))))))))))) : List Char).length = f + 5 := by
  have h5 : (newline "" "  " 2).length = 5 := rfl
  have hex : ∀ l : List Char, 5 ≤ l.length → ∃ f : Nat, l.length = f + 5 :=
    fun l hl => ⟨l.length - 5, by omega⟩
  apply hex
  simp only [List.length_cons, List.length_append, h5]
  omega

theorem parseObject_person (fmtTime : Time → String) (p : Person) (rest : List Char) :
    parseObject (jsonPerson fmtTime "" "  " p ++ rest) =
      some (members fmtTime p, rest) := by
  have hq : isWs '"' = false := by decide
  have hcd : (',' : Char).isDigit = false := by decide
  have hne : ('"' : Char) ≠ '}' := by decide
  have hfirst := parseMember_int "id" p.ID ','
    (newline "" "  " 2 ++ (jsonString "name" ++ (':' :: (' ' :: (jsonString p.Name ++ (',' :: (newline "" "  " 2 ++ (jsonString "age" ++ (':' :: (' ' :: (fmtInt p.Age ++ (',' :: (newline "" "  " 2 ++ (jsonString "email" ++ (':' :: (' ' :: (jsonString p.Email ++ (',' :: (newline "" "  " 2 ++ (jsonString "created_at" ++ (':' :: (' ' :: (jsonString (fmtTime p.CreatedAt) ++ (newline "" "  " 1 ++ '}' :: rest)))))))))))))))))))))))) hcd
  obtain ⟨f, hf⟩ := tail_length fmtTime p rest
  rw [jsonPerson_shape, parseObject]
  rw [jsonString_append "id"] at hfirst ⊢
  simp only [if_true, skipWs_newline 2 _ _ hq, hne, if_false, hfirst]
  rw [hf, parseMembers_person fmtTime p rest f]
  rfl

theorem jsonPerson_head (fmtTime : Time → String) (p : Person) (Y : List Char) :
    ∃ t : List Char, jsonPerson fmtTime "" "  " p ++ Y = '{' :: t :=
  ⟨_, jsonPerson_shape fmtTime p Y⟩

theorem parseObject_after_newline (fmtTime : Time → String) (p : Person) (Y : List Char) :
    parseObject (skipWs (newline "" "  " 1 ++ (jsonPerson fmtTime "" "  " p ++ Y))) =
      some (members fmtTime p, Y) := by
  have hb : isWs '{' = false := by decide
  obtain ⟨t, ht⟩ := jsonPerson_head fmtTime p Y
  rw [ht, skipWs_newline 1 _ _ hb, ← ht]
  exact parseObject_person fmtTime p Y

theorem jsonMore_length (fmtTime : Time → String) (ps : List Person) :
    ps.length ≤ (jsonMore fmtTime "" "  " ps).length := by
  induction ps with
  | nil => simp [jsonMore]
  | cons p ps ih =>
    simp only [jsonMore, List.length_cons, List.length_append]
    omega

theorem parseObjects_more (fmtTime : Time → String) (ps : List Person) (rest : List Char)
    (f : Nat) (hf : ps.length < f) :
    parseObjects f (jsonMore fmtTime "" "  " ps ++ (newline "" "  " 0 ++ ']' :: rest)) =
      some (ps.map (members fmtTime), rest) := by
  induction ps generalizing f with
  | nil =>
    obtain ⟨g, rfl⟩ : ∃ g, f = g + 1 := ⟨f - 1, by simp at hf; omega⟩
    have hb : isWs ']' = false := by decide
    simp only [jsonMore, List.nil_append, parseObjects, skipWs_newline 0 _ _ hb, if_true,
      List.map_nil]
  | cons p ps ih =>
    obtain ⟨g, rfl⟩ : ∃ g, f = g + 1 := ⟨f - 1, by simp at hf; omega⟩
    have hg : ps.length < g := by simpa using hf
    have hcomma : isWs ',' = false := by decide
    have h1 : (',' : Char) ≠ ']' := by decide
    simp only [jsonMore, List.cons_append, List.append_assoc, parseObjects,
      skipWs_of_not_ws _ _ hcomma, h1, if_false, if_true, parseObject_after_newline, ih g hg,
      List.map_cons]

theorem parseArray_people (fmtTime : Time → String) (ps : List Person) :
    parseArray (jsonPeople fmtTime "" "  " ps).data = some (ps.map (members fmtTime)) := by
  cases ps with
  | nil => rfl
  | cons p ps =>
    have hopen : isWs '[' = false := by decide
    have hb : isWs '{' = false := by decide
    have hne : ('{' : Char) ≠ ']' := by decide
    have hnl : skipWs ['\n'] = [] := by decide
    obtain ⟨t, ht⟩ := jsonPerson_head fmtTime p
      (jsonMore fmtTime "" "  " ps ++ (newline "" "  " 0 ++ [']', '\n']))
    have hobj := parseObject_person fmtTime p
      (jsonMore fmtTime "" "  " ps ++ (newline "" "  " 0 ++ [']', '\n']))
    have hlen : ps.length <
        (jsonMore fmtTime "" "  " ps ++ (newline "" "  " 0 ++ [']', '\n'])).length := by
      have := jsonMore_length fmtTime ps
      simp only [List.length_append, List.length_cons]
      omega
    have hmore := parseObjects_more fmtTime ps ['\n'] _ hlen
    rw [ht] at hobj
    simp only [jsonPeople, parseArray, skipWs_of_not_ws _ _ hopen, if_true, ht,
      skipWs_newline 1 _ _ hb, hne, if_false, hobj, hmore, hnl, List.map_cons]

theorem decodePerson_members (fmtTime : Time → String) (parseTime : String → Time)
    (p : Person) :
    decodePerson parseTime (members fmtTime p) =
      some { p with CreatedAt := parseTime (fmtTime p.CreatedAt) } := by
  simp [decodePerson, members, setField, List.foldlM]

theorem decode_all (fmtTime : Time → String) (parseTime : String → Time) (ps : List Person) :
    (ps.map (members fmtTime)).mapM (decodePerson parseTime) =
      some (ps.map fun p => { p with CreatedAt := parseTime (fmtTime p.CreatedAt) }) := by
  induction ps with
  | nil => rfl
  | cons p ps ih =>
    simp only [List.map_cons, List.mapM_cons, ih, decodePerson_members]
    rfl

theorem parsePeople_jsonPeople (fmtTime : Time → String) (parseTime : String → Time)
    (ps : List Person) :
    parsePeople parseTime (jsonPeople fmtTime "" "  " ps) =
      some (ps.map fun p => { p with CreatedAt := parseTime (fmtTime p.CreatedAt) }) := by
  simp only [parsePeople, parseArray_people, decode_all]

/-- C15, snapshot round-trip.  With the encoder of the document format (a
two-space-indented JSON array of records with the fields `id`, `name`, `age`,
`email`, `created_at`), `savePeopleToFile`, when the file can be created,
returns no error and writes the document of the entities behind its slice; for
every sequence of entities, that document parsed back gives the same number of
records, in the same order, with the same `ID`, `Name`, `Age` and `Email`
(the timestamp is whatever the reader makes of its text); and for Alice, 30,
and Bob, 17, `IsAdult` on the parsed records is true and false. -/
theorem snapshot_round_trip {F : Type} (fl : FloatOps F) (create : String → Option String)
    (fmtTime : Time → String) (parseTime : String → Time) (rs : List Person)
    (people : List Nat) (filename : String) (w : World F String) (ta tb : Time) :
    (create filename = none →
      (savePeopleToFile (jsonLib fl create fmtTime) people filename w).1 = .ok none ∧
      (savePeopleToFile (jsonLib fl create fmtTime) people filename w).2.files =
        w.files ++ [.create filename,
          .write filename (jsonPeople fmtTime "" "  " (people.map w.heap.cells)),
          .close filename]) ∧
      parsePeople parseTime (jsonPeople fmtTime "" "  " rs) =
        some (rs.map fun p => { p with CreatedAt := parseTime (fmtTime p.CreatedAt) }) ∧
      (∃ parsed : List Person,
        parsePeople parseTime (jsonPeople fmtTime "" "  " rs) = some parsed ∧
        parsed.length = rs.length ∧
        ∀ (i : Nat) (p : Person), rs[i]? = some p →
          ∃ q : Person, parsed[i]? = some q ∧ q.ID = p.ID ∧ q.Name = p.Name ∧
            q.Age = p.Age ∧ q.Email = p.Email) ∧
      (∃ a b : Person,
        parsePeople parseTime (jsonPeople fmtTime "" "  "
          [{ ID := 1, Name := "Alice", Age := 30, Email := "a@x.com", CreatedAt := ta },
           { ID := 2, Name := "Bob", Age := 17, Email := "b@x.com", CreatedAt := tb }]) =
          some [a, b] ∧
        a.ID = 1 ∧ a.Name = "Alice" ∧ a.Age = 30 ∧ a.Email = "a@x.com" ∧
        b.ID = 2 ∧ b.Name = "Bob" ∧ b.Age = 17 ∧ b.Email = "b@x.com" ∧
        a.IsAdult = true ∧ b.IsAdult = false) := by
  refine ⟨?_, parsePeople_jsonPeople fmtTime parseTime rs, ?_, ?_⟩
  · intro hc
    simp only [savePeopleToFile, jsonLib, hc, and_self]
  · refine ⟨_, parsePeople_jsonPeople fmtTime parseTime rs, by simp, ?_⟩
    intro i p hp
    refine ⟨{ p with CreatedAt := parseTime (fmtTime p.CreatedAt) }, ?_, rfl, rfl, rfl, rfl⟩
    simp only [List.getElem?_map, hp, Option.map_some']
  · exact ⟨_, _, parsePeople_jsonPeople fmtTime parseTime _, rfl, rfl, rfl, rfl, rfl, rfl, rfl,
      rfl, rfl, rfl⟩

end NvimGo
